import Mathlib

/-!
# Buffered HDF5 writers (`h5::Writer`, `h5::Writer1d`)

A shallow embedding of the two writer classes and of `insert` of
`include/HDF5Writer.hh`, of `get_type<Track>` and `get_empty<Track>` of
`src/HDF5Defs.cxx`, and of `main` of `src/dumph5-main.cxx`.

* `hsize_t` values are natural numbers.  Every `hsize_t` the writers compute is a
  row count, a buffer length or a sum of the two, so it is bounded by the number
  of records handed to `add`; wrap-around at `2^64` is out of reach and is not
  modelled.
* A member function is a function from the object's state to
  `Except Failure` of the new state.  The failures are the `std::logic_error`
  of the constructors, the `assert` in `Writer<T>::buffer_size`, the
  division by a zero `_max_length` in the same function, and the exception
  that `setChunk` throws in the constructors for a chunk dimension of zero.
* The HDF5 library is the storage layer.  `setChunk` validates its argument;
  the other calls are taken to succeed.  The dataset they act on is modelled by
  its extent, its cells, and counters of the `extend` and `write` calls it
  received.  Datatypes and compression do not affect which cells hold which
  records and are left out of the dataset; datatypes are described on their own
  (`DataType`, `packed`).
-/

namespace h5

/-- The ways a call can fail to return normally. -/
inductive Failure where
  /-- The statement `throw std::logic_error(what)` was reached. -/
  | logic_error (what : String)
  /-- An `assert(...)` evaluated to false. -/
  | assertion_failed
  /-- A `%` or `/` was evaluated with a zero divisor. -/
  | division_by_zero
  /-- A call into the HDF5 library threw an `H5::Exception`. -/
  | h5_exception
deriving DecidableEq, Repr

/-- The call `std::vector<T>::resize(n, value)`: keep the first `n` elements, or append
copies of `value` until the length is `n`. -/
def resize {α : Type} (v : List α) (n : Nat) (value : α) : List α :=
  v.take n ++ List.replicate (n - v.length) value

/-- The template `template <typename T> T get_empty()`: one specialisation per record type. -/
class GetEmpty (T : Type) where
  get_empty : T

export GetEmpty (get_empty)

/-! ## Storage layer -/

/-- A rank-2 `H5::DataSet`.  `rows.length` is the extent along the first
dimension, `width` the extent along the second; a cell is `none` until a write
selects it. -/
structure DataSet (T : Type) where
  width : Nat
  rows : List (List (Option T))
  n_extend : Nat
  n_write : Nat
  closed : Bool
deriving DecidableEq, Repr

/-- Embeds `H5::DataSet::extend(size)` on a rank-2 dataset: the extent becomes
`size`; cells that enter the extent are unwritten. -/
def DataSet.extend {T : Type} (ds : DataSet T) (size : Nat × Nat) : DataSet T :=
  { ds with
    width := size.2
    rows := resize (ds.rows.map (fun r => resize r size.2 none)) size.1
              (List.replicate size.2 none)
    n_extend := ds.n_extend + 1 }

/-- Embeds `H5::DataSet::write(buf, type, mem_space, file_space)` where
`file_space` is the dataset's space with the hyperslab `start`, `count` selected
and `mem_space` is a simple space of shape `count`: the elements of `buf`, in
row-major order, go to the selected cells.  The writers select a hyperslab that
lies inside the extent and has as many cells as `buf` has elements; outside that
use the model writes only the cells that exist and leaves a cell unwritten when
`buf` has no element for it. -/
def DataSet.write {T : Type} (ds : DataSet T) (buf : List T)
    (count start : Nat × Nat) : DataSet T :=
  { ds with
    rows := ds.rows.mapIdx (fun i row => row.mapIdx (fun j cell =>
      if start.1 ≤ i ∧ i < start.1 + count.1 ∧ start.2 ≤ j ∧ j < start.2 + count.2 then
        buf[(i - start.1) * count.2 + (j - start.2)]?
      else cell))
    n_write := ds.n_write + 1 }

/-- Embeds `H5::DataSet::close()`. -/
def DataSet.close {T : Type} (ds : DataSet T) : DataSet T :=
  { ds with closed := true }

/-- A rank-1 `H5::DataSet`: `cells.length` is its extent. -/
structure DataSet1 (T : Type) where
  cells : List (Option T)
  n_extend : Nat
  n_write : Nat
  closed : Bool
deriving DecidableEq, Repr

/-- Embeds `H5::DataSet::extend(size)` on a rank-1 dataset. -/
def DataSet1.extend {T : Type} (ds : DataSet1 T) (size : Nat) : DataSet1 T :=
  { ds with
    cells := resize ds.cells size none
    n_extend := ds.n_extend + 1 }

/-- Embeds `H5::DataSet::write` through a rank-1 hyperslab `start`, `count`. -/
def DataSet1.write {T : Type} (ds : DataSet1 T) (buf : List T)
    (count start : Nat) : DataSet1 T :=
  { ds with
    cells := ds.cells.mapIdx (fun i cell =>
      if start ≤ i ∧ i < start + count then buf[i - start]? else cell)
    n_write := ds.n_write + 1 }

/-- Embeds `H5::DataSet::close()` on a rank-1 dataset. -/
def DataSet1.close {T : Type} (ds : DataSet1 T) : DataSet1 T :=
  { ds with closed := true }

/-- An `H5::CommonFG` (file or group): the names it was asked to create a
dataset for, oldest first. -/
structure CommonFG where
  datasets : List String
deriving DecidableEq, Repr

/-- Embeds `H5::DSetCreatPropList::setChunk(ndims, dims)` as far as it can
fail: the library requires every chunk dimension to be positive and the call
throws when one of them is zero; otherwise `dims` is the chunk shape. -/
def DSetCreatPropList.setChunk (dims : List Nat) : Except Failure (List Nat) :=
  if 0 ∈ dims then .error .h5_exception else .ok dims

/-- Embeds `H5::CommonFG::createDataSet(name, type, space, params)` with a rank-2
`space` of initial extent `initial`. -/
def CommonFG.createDataSet {T : Type} (group : CommonFG) (name : String)
    (initial : Nat × Nat) : DataSet T × CommonFG :=
  ({ width := initial.2
     rows := List.replicate initial.1 (List.replicate initial.2 none)
     n_extend := 0
     n_write := 0
     closed := false },
   { datasets := group.datasets ++ [name] })

/-- Embeds `H5::CommonFG::createDataSet` with a rank-1 `space` of initial extent
`initial`. -/
def CommonFG.createDataSet1 {T : Type} (group : CommonFG) (name : String)
    (initial : Nat) : DataSet1 T × CommonFG :=
  ({ cells := List.replicate initial none
     n_extend := 0
     n_write := 0
     closed := false },
   { datasets := group.datasets ++ [name] })

/-! ## `Writer<T>`: the rank-2 writer -/

/-- The data members of `Writer<T>`. -/
structure Writer (T : Type) where
  _max_length : Nat
  _batch_size : Nat
  _offset : Nat
  _buffer : List T
  _ds : DataSet T
deriving DecidableEq, Repr

/-- Embeds `Writer<T>::Writer(group, name, max_length, batch_size)`
(HDF5Writer.hh:102-126): the guard on `batch_size`, `params.setChunk` with the
chunk shape `{batch_size, max_length}`, then `createDataSet`.  The result pairs
the outcome with the group as the call leaves it. -/
def Writer.ctor (T : Type) (group : CommonFG) (name : String)
    (max_length batch_size : Nat) : Except Failure (Writer T) × CommonFG :=
  if batch_size < 1 then
    (.error (.logic_error "batch size must be > 0"), group)
  else
    let initial : Nat × Nat := (0, max_length)
    let chunk_size : List Nat := [batch_size, max_length]
    match DSetCreatPropList.setChunk chunk_size with
    | .error e => (.error e, group)
    | .ok _ =>
      let created := group.createDataSet name initial
      (.ok { _max_length := max_length
             _batch_size := batch_size
             _offset := 0
             _buffer := []
             _ds := created.1 },
       created.2)

/-- Embeds `Writer<T>::buffer_size() const` (HDF5Writer.hh:160-164). -/
def Writer.buffer_size {T : Type} (w : Writer T) : Except Failure Nat :=
  if w._max_length = 0 then .error .division_by_zero
  else if w._buffer.length % w._max_length ≠ 0 then .error .assertion_failed
  else .ok (w._buffer.length / w._max_length)

/-- Embeds `Writer<T>::flush()` (HDF5Writer.hh:137-155). -/
def Writer.flush {T : Type} (w : Writer T) : Except Failure (Writer T) :=
  match w.buffer_size with
  | .error e => .error e
  | .ok n =>
    if n = 0 then .ok w
    else
      let slab_dims : Nat × Nat := (n, w._max_length)
      let total_dims : Nat × Nat := (n + w._offset, w._max_length)
      let ds := w._ds.extend total_dims
      let offset_dims : Nat × Nat := (w._offset, 0)
      let ds := ds.write w._buffer slab_dims offset_dims
      .ok { w with _ds := ds, _offset := w._offset + n, _buffer := [] }

/-- Embeds `Writer<T>::add(std::vector<T> jet)` (HDF5Writer.hh:128-136). -/
def Writer.add {T : Type} [GetEmpty T] (w : Writer T) (jet : List T) :
    Except Failure (Writer T) :=
  match w.buffer_size with
  | .error e => .error e
  | .ok n =>
    match (if n = w._batch_size then w.flush else .ok w) with
    | .error e => .error e
    | .ok w =>
      let dummy : T := get_empty
      let jet := resize jet w._max_length dummy
      .ok { w with _buffer := w._buffer ++ jet }

/-- Embeds `Writer<T>::close()` (HDF5Writer.hh:156-159). -/
def Writer.close {T : Type} (w : Writer T) : Writer T :=
  { w with _ds := w._ds.close }

/-! ## `Writer1d<T>`: the rank-1 writer -/

/-- The data members of `Writer1d<T>`. -/
structure Writer1d (T : Type) where
  _batch_size : Nat
  _offset : Nat
  _buffer : List T
  _ds : DataSet1 T
deriving DecidableEq, Repr

/-- Embeds `Writer1d<T>::Writer1d(group, name, batch_size)` (HDF5Writer.hh:169-192):
the guard on `batch_size`, `params.setChunk` with the chunk shape
`{batch_size}`, then `createDataSet`. -/
def Writer1d.ctor (T : Type) (group : CommonFG) (name : String)
    (batch_size : Nat) : Except Failure (Writer1d T) × CommonFG :=
  if batch_size < 1 then
    (.error (.logic_error "batch size must be > 0"), group)
  else
    let chunk_size : List Nat := [batch_size]
    match DSetCreatPropList.setChunk chunk_size with
    | .error e => (.error e, group)
    | .ok _ =>
      let created := group.createDataSet1 name 0
      (.ok { _batch_size := batch_size
             _offset := 0
             _buffer := []
             _ds := created.1 },
       created.2)

/-- Embeds `Writer1d<T>::buffer_size() const` (HDF5Writer.hh:224-227). -/
def Writer1d.buffer_size {T : Type} (w : Writer1d T) : Nat :=
  w._buffer.length

/-- Embeds `Writer1d<T>::flush()` (HDF5Writer.hh:201-219). -/
def Writer1d.flush {T : Type} (w : Writer1d T) : Writer1d T :=
  if w.buffer_size = 0 then w
  else
    let slab_dims := w.buffer_size
    let total_dims := w.buffer_size + w._offset
    let ds := w._ds.extend total_dims
    let offset_dims := w._offset
    let ds := ds.write w._buffer slab_dims offset_dims
    { w with _ds := ds, _offset := w._offset + w.buffer_size, _buffer := [] }

/-- Embeds `Writer1d<T>::add(const T& jet)` (HDF5Writer.hh:194-200). -/
def Writer1d.add {T : Type} (w : Writer1d T) (jet : T) : Writer1d T :=
  let w := if w.buffer_size = w._batch_size then w.flush else w
  { w with _buffer := w._buffer ++ [jet] }

/-- Embeds `Writer1d<T>::close()` (HDF5Writer.hh:220-223). -/
def Writer1d.close {T : Type} (w : Writer1d T) : Writer1d T :=
  { w with _ds := w._ds.close }

/-! ## Call sequences -/

/-- A call a client makes on a rank-2 writer between construction and close. -/
inductive Op (T : Type) where
  | add (jet : List T)
  | flush
deriving DecidableEq, Repr

/-- Perform one call. -/
def Writer.step {T : Type} [GetEmpty T] (w : Writer T) : Op T → Except Failure (Writer T)
  | .add jet => w.add jet
  | .flush => w.flush

/-- Perform the calls of `ops` from left to right, stopping at the first failure. -/
def Writer.run {T : Type} [GetEmpty T] (w : Writer T) : List (Op T) → Except Failure (Writer T)
  | [] => .ok w
  | op :: ops =>
    match w.step op with
    | .error e => .error e
    | .ok w => w.run ops

/-- A call a client makes on a rank-1 writer between construction and close. -/
inductive Op1 (T : Type) where
  | add (jet : T)
  | flush
deriving DecidableEq, Repr

/-- Perform one call on a rank-1 writer. -/
def Writer1d.step {T : Type} (w : Writer1d T) : Op1 T → Writer1d T
  | .add jet => w.add jet
  | .flush => w.flush

/-- Perform the calls of `ops` from left to right on a rank-1 writer. -/
def Writer1d.run {T : Type} (w : Writer1d T) (ops : List (Op1 T)) : Writer1d T :=
  ops.foldl Writer1d.step w

/-! ## The record type of the driver -/

/-- Modelled from the spec: `Track.hh` is not among the sources.  The record has
a numeric field `pt` and a boolean field `mask`, in that order; the writers only
copy `pt`, so an integer stands for it. -/
structure Track where
  pt : Int
  mask : Bool
deriving DecidableEq, Repr

/-- The specialisation `template<> Track get_empty<Track>()` (HDF5Defs.cxx:16-22). -/
instance : GetEmpty Track where
  get_empty := { pt := 0, mask := false }


/-! ## Reading rows out of a flat buffer -/

/-- Row `i` of a flat, row-major buffer whose rows are `m` long: the elements
`buf[i*m] .. buf[i*m + m - 1]`. -/
def slab_row {α : Type} (buf : List α) (m i : Nat) : List α :=
  (buf.drop (i * m)).take m

/-- The first `n` rows of a flat, row-major buffer whose rows are `m` long. -/
def slab_rows {α : Type} (buf : List α) (m n : Nat) : List (List α) :=
  (List.range n).map (slab_row buf m)

/-! ## The state of a rank-2 writer in terms of rows -/

/-- The writer `w` is in the state where the rows `committed` are in the dataset
and the rows `pending` are in the buffer: every row is `_max_length` long, the
buffer is the rows of `pending` back to back, the dataset holds exactly the rows
of `committed`, and `_offset` counts them. -/
structure Writer.Holds {T : Type} (w : Writer T) (committed pending : List (List T)) : Prop where
  max_length_pos : 1 ≤ w._max_length
  batch_size_pos : 1 ≤ w._batch_size
  committed_width : ∀ r ∈ committed, r.length = w._max_length
  pending_width : ∀ r ∈ pending, r.length = w._max_length
  buffer_eq : w._buffer = pending.flatten
  rows_eq : w._ds.rows = committed.map (List.map some)
  width_eq : w._ds.width = w._max_length
  offset_eq : w._offset = committed.length
  pending_le : pending.length ≤ w._batch_size

/-- The rank-1 writer `w` is in the state where the records `committed` are in
the dataset: the dataset holds exactly those records and `_offset` counts them;
the buffered records never exceed the batch size. -/
structure Writer1d.Holds {T : Type} (w : Writer1d T) (committed : List T) : Prop where
  batch_size_pos : 1 ≤ w._batch_size
  cells_eq : w._ds.cells = committed.map some
  offset_eq : w._offset = committed.length
  buffer_le : w._buffer.length ≤ w._batch_size

/-- The arguments of the `add` calls of `ops`, in call order. -/
def Op.adds {T : Type} : List (Op T) → List (List T)
  | [] => []
  | .add jet :: ops => jet :: Op.adds ops
  | .flush :: ops => Op.adds ops

/-- The reference run of the batching property: every sequence is written by
one `add` immediately followed by one `flush`. -/
def flush_after_every_add {T : Type} (seqs : List (List T)) : List (Op T) :=
  seqs.flatMap (fun jet => [Op.add jet, Op.flush])

/-! ## Concrete inputs -/

/-- A call sequence on a `Writer<Track>`: a short, a long and an exact sequence
for `max_length = 2`, with flushes before the first and after the second `add`. -/
def sample_ops : List (Op Track) :=
  [Op.flush, Op.add [⟨1, true⟩], Op.add [⟨2, true⟩, ⟨3, true⟩, ⟨4, true⟩],
   Op.flush, Op.flush, Op.add [⟨5, false⟩, ⟨6, true⟩]]

/-- A `Writer<Track>` with `max_length = 2`, one row committed and two rows
buffered. -/
def sample_writer : Writer Track :=
  { _max_length := 2
    _batch_size := 3
    _offset := 1
    _buffer := [⟨1, true⟩, ⟨2, true⟩, ⟨3, false⟩, ⟨0, false⟩]
    _ds := { width := 2
             rows := [[some ⟨7, true⟩, some ⟨0, false⟩]]
             n_extend := 1
             n_write := 1
             closed := false } }

/-- A call sequence on a `Writer1d<Track>` with a flush in the middle. -/
def sample_ops1 : List (Op1 Track) :=
  [Op1.add ⟨1, true⟩, Op1.add ⟨2, false⟩, Op1.flush, Op1.add ⟨3, true⟩,
   Op1.add ⟨4, true⟩, Op1.add ⟨5, true⟩]


/-- The arguments of the `add` calls of `ops` on a rank-1 writer, in call order. -/
def Op1.adds {T : Type} : List (Op1 T) → List T
  | [] => []
  | .add jet :: ops => jet :: Op1.adds ops
  | .flush :: ops => Op1.adds ops

/-! ## The rank-1 writer against the rank-2 writer -/

/-- The rank-2 call that a rank-1 call corresponds to: `add(r)` is `add([r])`. -/
def Op1.lift {T : Type} : Op1 T → Op T
  | .add jet => .add [jet]
  | .flush => .flush

/-- The simulation relation between a rank-1 writer and a rank-2 writer with
`max_length = 1`: same batch size, same offset, same buffered records, same
counts of `extend` and `write` calls, and the rank-2 dataset has the one-cell
row `[c]` where the rank-1 dataset has the cell `c`. -/
def Simulates {T : Type} (w1 : Writer1d T) (w2 : Writer T) : Prop :=
  w2._max_length = 1 ∧ w2._batch_size = w1._batch_size ∧ w2._offset = w1._offset ∧
  w2._buffer = w1._buffer ∧
  w2._ds.n_extend = w1._ds.n_extend ∧ w2._ds.n_write = w1._ds.n_write ∧
  w2._ds.rows = w1._ds.cells.map (fun c => [c])

/-! ## Datatypes -/

/-- An `H5::DataType` as far as the sources describe one: a predefined atomic
type of some size in bytes, or a compound type (`H5::CompType`) of a total size
with its members, each a name, a byte offset and a datatype, in insertion
order. -/
inductive DataType where
  | atomic (name : String) (size : Nat)
  | compound (size : Nat) (members : List (String × Nat × DataType))

/-- Embeds `H5::DataType::getSize()`. -/
def DataType.getSize : DataType → Nat
  | .atomic _ size => size
  | .compound size _ => size

/-- Embeds `H5::CompType::insertMember(name, offset, type)`: the member is added
after the members already there.  Only a compound type has the member function;
an atomic type is returned as it is. -/
def DataType.insertMember (into : DataType) (nm : String) (offset : Nat)
    (type : DataType) : DataType :=
  match into with
  | .atomic name size => .atomic name size
  | .compound size members => .compound size (members ++ [(nm, offset, type)])

/-- Embeds `h5::insert(into, nm, offset, member pointer)` (HDF5Writer.hh:92-98);
`member_type` is `get_type<member_t>()` for the member's type. -/
def insert (into : DataType) (nm : String) (offset : Nat) (member_type : DataType) :
    DataType :=
  into.insertMember nm offset member_type

/-- Modelled from the spec: `Track.hh` is not among the sources, so what the
compiler and `get_type` give for the record with the numeric field `pt` and the
boolean field `mask` is taken as given: `sizeof(Track)`, the two `offsetof`
values, and `get_type` of the two member types. -/
structure TrackLayout where
  sizeof_Track : Nat
  offsetof_pt : Nat
  offsetof_mask : Nat
  get_type_pt : DataType
  get_type_mask : DataType

/-- Embeds `template<> H5::DataType get_type<Track>()` (HDF5Defs.cxx:6-14). -/
def get_type_Track (layout : TrackLayout) : DataType :=
  let type := DataType.compound layout.sizeof_Track []
  let type := insert type "pt" layout.offsetof_pt layout.get_type_pt
  let type := insert type "mask" layout.offsetof_mask layout.get_type_mask
  type

/-- The members of a compound type laid out back to back from byte `next` on,
each keeping its name and datatype. -/
def pack_members : Nat → List (String × Nat × DataType) → List (String × Nat × DataType)
  | _, [] => []
  | next, (nm, _, type) :: members =>
    (nm, next, type) :: pack_members (next + type.getSize) members

/-- The first byte after the members laid out back to back from byte `next` on. -/
def pack_end : Nat → List (String × Nat × DataType) → Nat
  | next, [] => next
  | next, (_, _, type) :: members => pack_end (next + type.getSize) members

/-- Modelled from the spec: the body of `H5::DataType packed(H5::DataType)` is
not among the sources, only its declaration (HDF5Writer.hh:73-75).  Spec 4.2:
given a layout descriptor with real (possibly padded) offsets, it returns a
descriptor with identical fields in the same order but contiguous (unpadded)
offsets.  An atomic descriptor has no fields and is returned as it is. -/
def packed : DataType → DataType
  | .atomic name size => .atomic name size
  | .compound _ members => .compound (pack_end 0 members) (pack_members 0 members)

/-- A layout of `Track` with padding: a 4-byte `pt` at offset 0 and a 1-byte
`mask` at offset 8 in a 12-byte record. -/
def sample_layout : TrackLayout :=
  { sizeof_Track := 12
    offsetof_pt := 0
    offsetof_mask := 8
    get_type_pt := .atomic "NATIVE_FLOAT" 4
    get_type_mask := .atomic "NATIVE_HBOOL" 1 }

/-! ## The driver -/

/-- Embeds `main` (dumph5-main.cxx:6-21) for an argument `in` that is not
negative (`in = 0` when the program is run without an argument): a
`Writer<Track>` named `tracks` with `max_length = in` and batch size 256 in a
fresh file, `in` calls of `add` with a vector of `in` value-initialised records
`track0`, then `flush()` and `close()`.  The result is the writer as `close()`
leaves it. -/
def main (in_ : Nat) (track0 : Track) : Except Failure (Writer Track) :=
  let out_file : CommonFG := { datasets := [] }
  match (Writer.ctor Track out_file "tracks" in_ 256).1 with
  | .error e => .error e
  | .ok track_writer =>
    let test_tracks : List Track := List.replicate in_ track0
    match track_writer.run (List.replicate in_ (Op.add test_tracks)) with
    | .error e => .error e
    | .ok track_writer =>
      match track_writer.flush with
      | .error e => .error e
      | .ok track_writer => .ok track_writer.close

/-! ## Lemmas on `resize` and on the storage layer -/

theorem resize_length {α : Type} (v : List α) (n : Nat) (x : α) :
    (resize v n x).length = n := by
  simp only [resize, List.length_append, List.length_take, List.length_replicate]
  omega

theorem resize_of_length_eq {α : Type} (v : List α) (n : Nat) (x : α)
    (h : v.length = n) : resize v n x = v := by
  subst h
  simp [resize]

theorem getElem?_resize {α : Type} (v : List α) (n : Nat) (x : α) (i : Nat) :
    (resize v n x)[i]? = if i < n then some ((v[i]?).getD x) else none := by
  unfold resize
  by_cases hi : i < n
  · rw [if_pos hi]
    by_cases hv : i < v.length
    · rw [List.getElem?_append_left (by simp; omega), List.getElem?_take_of_lt hi,
        List.getElem?_eq_getElem hv]
      rfl
    · rw [List.getElem?_append_right (by simp; omega), List.getElem?_replicate,
        if_pos (by simp; omega), List.getElem?_eq_none (by omega)]
      rfl
  · rw [if_neg hi]
    apply List.getElem?_eq_none
    simp only [List.length_append, List.length_take, List.length_replicate]
    omega

/-- The row that `DataSet.write` leaves at row index `i`. -/
theorem write_row {T : Type} (buf : List T) (n m o i : Nat) (row : List (Option T))
    (hrow : row.length = m) :
    row.mapIdx (fun j cell =>
      if (o, 0).1 ≤ i ∧ i < (o, 0).1 + (n, m).1 ∧ (o, 0).2 ≤ j ∧ j < (o, 0).2 + (n, m).2 then
        buf[(i - (o, 0).1) * (n, m).2 + (j - (o, 0).2)]?
      else cell)
    = if o ≤ i ∧ i < o + n then (List.range m).map (fun j => buf[(i - o) * m + j]?)
      else row := by
  apply List.ext_getElem?
  intro j
  rw [List.getElem?_mapIdx]
  dsimp only
  by_cases hj : j < m
  · have hr : row[j]? = some row[j] := List.getElem?_eq_getElem (by omega)
    rw [hr, Option.map_some']
    by_cases hi : o ≤ i ∧ i < o + n
    · have hc : o ≤ i ∧ i < o + n ∧ 0 ≤ j ∧ j < 0 + m := ⟨hi.1, hi.2, Nat.zero_le j, by omega⟩
      rw [if_pos hi, if_pos hc, List.getElem?_map, List.getElem?_range hj]
      simp
    · have hc : ¬ (o ≤ i ∧ i < o + n ∧ 0 ≤ j ∧ j < 0 + m) := fun h => hi ⟨h.1, h.2.1⟩
      rw [if_neg hi, if_neg hc, hr]
  · have hr : row[j]? = none := List.getElem?_eq_none (by omega)
    rw [hr, Option.map_none']
    by_cases hi : o ≤ i ∧ i < o + n
    · rw [if_pos hi, List.getElem?_eq_none (by simp; omega)]
    · rw [if_neg hi, hr]

theorem range_map_getElem?_eq_slab_row {T : Type} (buf : List T) (m k : Nat)
    (h : (k + 1) * m ≤ buf.length) :
    (List.range m).map (fun j => buf[k * m + j]?) = (slab_row buf m k).map some := by
  have hkm : (k + 1) * m = k * m + m := by ring
  apply List.ext_getElem?
  intro j
  unfold slab_row
  rw [List.getElem?_map, List.getElem?_map]
  by_cases hj : j < m
  · rw [List.getElem?_range hj, List.getElem?_take_of_lt hj, List.getElem?_drop,
      List.getElem?_eq_getElem (by omega)]
    simp only [Option.map_some']
    rw [List.getElem?_eq_getElem (by omega)]
  · rw [List.getElem?_eq_none (by simp; omega), List.getElem?_eq_none (by simp; omega)]
    rfl

/-- What `extend` to `n + o` rows followed by a `write` of `n` rows at row `o`
leaves in the dataset. -/
theorem extend_write_rows {T : Type} (ds : DataSet T) (buf : List T) (n m o : Nat)
    (hbuf : buf.length = n * m) :
    ((ds.extend (n + o, m)).write buf (n, m) (o, 0)).rows
      = resize (ds.rows.map (fun r => resize r m none)) o (List.replicate m none)
        ++ (slab_rows buf m n).map (List.map some) := by
  apply List.ext_getElem?
  intro i
  unfold DataSet.write DataSet.extend
  dsimp only
  rw [List.getElem?_mapIdx, getElem?_resize]
  have hlen : ∀ k : Nat, (((ds.rows.map (fun r => resize r m none))[k]?).getD
      (List.replicate m (none : Option T))).length = m := by
    intro k
    rw [List.getElem?_map]
    cases ds.rows[k]? with
    | none => simp
    | some r => simp [resize_length]
  by_cases hi : i < o
  · have h1 : i < n + o := by omega
    have h2 : ¬ (o ≤ i ∧ i < o + n) := by omega
    rw [if_pos h1, Option.map_some', write_row buf n m o i _ (hlen i), if_neg h2,
      List.getElem?_append_left (by rw [resize_length]; exact hi), getElem?_resize, if_pos hi]
  · by_cases hi2 : i < o + n
    · have h1 : i < n + o := by omega
      have h2 : o ≤ i ∧ i < o + n := by omega
      have h3 : (i - o + 1) * m ≤ buf.length := by
        rw [hbuf]; exact Nat.mul_le_mul_right m (by omega)
      rw [if_pos h1, Option.map_some', write_row buf n m o i _ (hlen i), if_pos h2,
        List.getElem?_append_right (by rw [resize_length]; omega), resize_length,
        range_map_getElem?_eq_slab_row buf m (i - o) h3]
      unfold slab_rows
      rw [List.getElem?_map, List.getElem?_map, List.getElem?_range (by omega)]
      rfl
    · have h1 : ¬ i < n + o := by omega
      rw [if_neg h1, Option.map_none']
      symm
      apply List.getElem?_eq_none
      simp only [List.length_append, resize_length, List.length_map, slab_rows,
        List.length_range]
      omega

/-! ## Lemmas on the rank-2 writer -/

theorem length_flatten_of_width {α : Type} (m : Nat) (p : List (List α))
    (h : ∀ r ∈ p, r.length = m) : p.flatten.length = p.length * m := by
  induction p with
  | nil => simp
  | cons r p ih =>
    have hr : r.length = m := h r (List.mem_cons_self r p)
    have hp := ih (fun x hx => h x (List.mem_cons_of_mem r hx))
    rw [List.flatten_cons, List.length_append, hr, hp, List.length_cons]
    ring

theorem slab_row_flatten {α : Type} (m : Nat) (p : List (List α))
    (h : ∀ r ∈ p, r.length = m) (i : Nat) :
    p[i]? = if i < p.length then some (slab_row p.flatten m i) else none := by
  induction p generalizing i with
  | nil => simp
  | cons r p ih =>
    have hr : r.length = m := h r (List.mem_cons_self r p)
    have hp := ih (fun x hx => h x (List.mem_cons_of_mem r hx))
    cases i with
    | zero =>
      simp only [List.getElem?_cons_zero, List.length_cons, Nat.zero_lt_succ, if_true,
        slab_row, Nat.zero_mul, List.drop_zero, List.flatten_cons]
      rw [List.take_left' hr]
    | succ i =>
      rw [List.getElem?_cons_succ, hp i]
      have hd : (i + 1) * m = r.length + i * m := by rw [hr]; ring
      simp only [List.length_cons, Nat.add_lt_add_iff_right, slab_row, List.flatten_cons, hd,
        List.drop_append]

theorem slab_rows_flatten {α : Type} (m : Nat) (p : List (List α))
    (h : ∀ r ∈ p, r.length = m) : slab_rows p.flatten m p.length = p := by
  apply List.ext_getElem?
  intro i
  rw [slab_row_flatten m p h i]
  unfold slab_rows
  rw [List.getElem?_map]
  by_cases hi : i < p.length
  · rw [List.getElem?_range hi, if_pos hi]; rfl
  · rw [List.getElem?_eq_none (by simp; omega), if_neg hi]; rfl

theorem buffer_size_of_rows {T : Type} (w : Writer T) (n : Nat)
    (hm : 1 ≤ w._max_length) (hbuf : w._buffer.length = n * w._max_length) :
    w.buffer_size = .ok n := by
  unfold Writer.buffer_size
  have h0 : w._max_length ≠ 0 := by omega
  rw [if_neg h0, hbuf, Nat.mul_mod_left, Nat.mul_div_cancel n (by omega)]
  simp

theorem flush_of_no_rows {T : Type} (w : Writer T)
    (hm : 1 ≤ w._max_length) (hbuf : w._buffer = []) : w.flush = .ok w := by
  have hs := buffer_size_of_rows w 0 hm (by simp [hbuf])
  unfold Writer.flush
  rw [hs]
  rfl

theorem flush_of_rows {T : Type} (w : Writer T) (n : Nat)
    (hm : 1 ≤ w._max_length) (hbuf : w._buffer.length = n * w._max_length) (hn : 1 ≤ n) :
    w.flush = .ok { w with
      _ds := (w._ds.extend (n + w._offset, w._max_length)).write w._buffer
               (n, w._max_length) (w._offset, 0)
      _offset := w._offset + n
      _buffer := [] } := by
  have hs := buffer_size_of_rows w n hm hbuf
  have h0 : n ≠ 0 := by omega
  unfold Writer.flush
  rw [hs]
  simp only [if_neg h0]

theorem map_resize_of_width {α : Type} (m : Nat) (x : α) (rows : List (List α))
    (h : ∀ r ∈ rows, r.length = m) : rows.map (fun r => resize r m x) = rows := by
  induction rows with
  | nil => rfl
  | cons r rows ih =>
    rw [List.map_cons, resize_of_length_eq r m x (h r (List.mem_cons_self r rows)),
      ih (fun y hy => h y (List.mem_cons_of_mem r hy))]

/-- The dataset rows after a flush of a non-empty buffer, in a state described
by `Holds`. -/
theorem flush_rows_of_holds {T : Type} (w : Writer T) (c p : List (List T))
    (h : w.Holds c p) :
    ((w._ds.extend (p.length + w._offset, w._max_length)).write w._buffer
        (p.length, w._max_length) (w._offset, 0)).rows
      = (c ++ p).map (List.map some) := by
  have hb : w._buffer.length = p.length * w._max_length := by
    rw [h.buffer_eq, length_flatten_of_width w._max_length p h.pending_width]
  have hw : ∀ r ∈ w._ds.rows, r.length = w._max_length := by
    intro r hr
    rw [h.rows_eq, List.mem_map] at hr
    obtain ⟨r0, hr0, rfl⟩ := hr
    rw [List.length_map, h.committed_width r0 hr0]
  rw [extend_write_rows w._ds w._buffer p.length w._max_length w._offset hb,
    map_resize_of_width w._max_length none w._ds.rows hw,
    resize_of_length_eq w._ds.rows w._offset _ (by rw [h.rows_eq, List.length_map, h.offset_eq]),
    h.rows_eq, h.buffer_eq, slab_rows_flatten w._max_length p h.pending_width, List.map_append]

theorem flush_holds {T : Type} (w : Writer T) (c p : List (List T)) (h : w.Holds c p) :
    ∃ w', w.flush = .ok w' ∧ w'.Holds (c ++ p) [] ∧
      w'._max_length = w._max_length ∧ w'._batch_size = w._batch_size ∧
      (p = [] → w' = w) ∧
      (p ≠ [] → w'._ds.n_extend = w._ds.n_extend + 1 ∧ w'._ds.n_write = w._ds.n_write + 1) := by
  have hb : w._buffer.length = p.length * w._max_length := by
    rw [h.buffer_eq, length_flatten_of_width w._max_length p h.pending_width]
  by_cases hp : p = []
  · subst hp
    refine ⟨w, flush_of_no_rows w h.max_length_pos (by rw [h.buffer_eq]; rfl), ?_, rfl, rfl,
      fun _ => rfl, fun hne => absurd rfl hne⟩
    rw [List.append_nil]
    exact h
  · have hn : 1 ≤ p.length := List.length_pos.mpr hp
    refine ⟨_, flush_of_rows w p.length h.max_length_pos hb hn, ?_, rfl, rfl,
      fun he => absurd he hp, fun _ => ⟨rfl, rfl⟩⟩
    refine ⟨h.max_length_pos, h.batch_size_pos, ?_, ?_, rfl, flush_rows_of_holds w c p h, rfl,
      ?_, Nat.zero_le _⟩
    · intro r hr
      rcases List.mem_append.mp hr with hr | hr
      · exact h.committed_width r hr
      · exact h.pending_width r hr
    · intro r hr
      cases hr
    · show w._offset + p.length = (c ++ p).length
      rw [h.offset_eq, List.length_append]

theorem add_holds {T : Type} [GetEmpty T] (w : Writer T) (c p : List (List T))
    (h : w.Holds c p) (jet : List T) :
    ∃ w', w.add jet = .ok w' ∧
      w'._max_length = w._max_length ∧ w'._batch_size = w._batch_size ∧
      (p.length = w._batch_size →
        w'.Holds (c ++ p) [resize jet w._max_length get_empty] ∧
        w'._ds.n_extend = w._ds.n_extend + 1 ∧ w'._ds.n_write = w._ds.n_write + 1) ∧
      (p.length ≠ w._batch_size →
        w'.Holds c (p ++ [resize jet w._max_length get_empty]) ∧
        w'._ds = w._ds ∧ w'._offset = w._offset) := by
  have hb : w._buffer.length = p.length * w._max_length := by
    rw [h.buffer_eq, length_flatten_of_width w._max_length p h.pending_width]
  have hs := buffer_size_of_rows w p.length h.max_length_pos hb
  by_cases hfull : p.length = w._batch_size
  · obtain ⟨w1, hf, h1, hm1, hb1, _, hcount⟩ := flush_holds w c p h
    have hp : p ≠ [] := by
      intro he
      have := h.batch_size_pos
      rw [he] at hfull
      simp at hfull
      omega
    refine ⟨{ w1 with _buffer := w1._buffer ++ resize jet w1._max_length get_empty }, ?_,
      hm1, hb1, fun _ => ⟨?_, hcount hp⟩, fun hne => absurd hfull hne⟩
    · unfold Writer.add
      rw [hs]
      simp only [if_pos hfull, hf]
    · refine ⟨h1.max_length_pos, h1.batch_size_pos, h1.committed_width, ?_, ?_, h1.rows_eq,
        h1.width_eq, h1.offset_eq, ?_⟩
      · intro r hr
        rw [List.mem_singleton] at hr
        rw [hr, resize_length]
        exact hm1.symm
      · show w1._buffer ++ resize jet w1._max_length get_empty = _
        rw [h1.buffer_eq, hm1]
        simp
      · exact h1.batch_size_pos
  · refine ⟨{ w with _buffer := w._buffer ++ resize jet w._max_length get_empty }, ?_,
      rfl, rfl, fun he => absurd he hfull, fun _ => ⟨?_, rfl, rfl⟩⟩
    · unfold Writer.add
      rw [hs]
      simp only [if_neg hfull]
    · refine ⟨h.max_length_pos, h.batch_size_pos, h.committed_width, ?_, ?_, h.rows_eq,
        h.width_eq, h.offset_eq, ?_⟩
      · intro r hr
        rcases List.mem_append.mp hr with hr | hr
        · exact h.pending_width r hr
        · rw [List.mem_singleton] at hr
          rw [hr, resize_length]
      · show w._buffer ++ resize jet w._max_length get_empty = _
        rw [h.buffer_eq]
        simp
      · have := h.pending_le
        show (p ++ [resize jet w._max_length get_empty]).length ≤ w._batch_size
        rw [List.length_append, List.length_singleton]
        omega

theorem setChunk_ok (dims : List Nat) (h : 0 ∉ dims) :
    DSetCreatPropList.setChunk dims = .ok dims := by
  unfold DSetCreatPropList.setChunk
  rw [if_neg h]

theorem setChunk_error (dims : List Nat) (h : 0 ∈ dims) :
    DSetCreatPropList.setChunk dims = .error .h5_exception := by
  unfold DSetCreatPropList.setChunk
  rw [if_pos h]

theorem ctor_ok (T : Type) (group : CommonFG) (name : String) (m b : Nat) (hb : 1 ≤ b)
    (hm : 1 ≤ m) :
    Writer.ctor T group name m b =
      (.ok { _max_length := m, _batch_size := b, _offset := 0, _buffer := [],
             _ds := { width := m, rows := [], n_extend := 0, n_write := 0, closed := false } },
       ({ datasets := group.datasets ++ [name] } : CommonFG)) := by
  have h : ¬ b < 1 := by omega
  have hc : (0 : Nat) ∉ [b, m] := by
    simp only [List.mem_cons, List.mem_singleton, List.not_mem_nil, or_false, not_or]
    omega
  unfold Writer.ctor
  rw [if_neg h]
  simp only [setChunk_ok _ hc]
  rfl

/-- With `max_length = 0` and `batch_size ≥ 1` the constructor ends in the
exception of `setChunk`, before `createDataSet`. -/
theorem ctor_zero (T : Type) (group : CommonFG) (name : String) (m b : Nat) (hb : 1 ≤ b)
    (hm : m = 0) :
    Writer.ctor T group name m b = (.error .h5_exception, group) := by
  have h : ¬ b < 1 := by omega
  have hc : (0 : Nat) ∈ [b, m] := by
    rw [hm]
    simp
  unfold Writer.ctor
  rw [if_neg h]
  simp only [setChunk_error _ hc]

/-- A constructed rank-2 writer has `batch_size ≥ 1` and `max_length ≥ 1`. -/
theorem ctor_ok_inv (T : Type) (group : CommonFG) (name : String) (m b : Nat)
    (w0 : Writer T) (h0 : (Writer.ctor T group name m b).1 = .ok w0) : 1 ≤ b ∧ 1 ≤ m := by
  by_cases hb : 1 ≤ b
  · by_cases hm : m = 0
    · rw [ctor_zero T group name m b hb hm] at h0
      cases h0
    · exact ⟨hb, Nat.pos_of_ne_zero hm⟩
  · have hlt : b < 1 := by omega
    simp [Writer.ctor, hlt] at h0

theorem ctor_holds {T : Type} (group : CommonFG) (name : String) (m b : Nat)
    (hm : 1 ≤ m) (w0 : Writer T) (h0 : (Writer.ctor T group name m b).1 = .ok w0) :
    w0.Holds [] [] ∧ w0._max_length = m ∧ w0._batch_size = b ∧
      w0._ds.n_extend = 0 ∧ w0._ds.n_write = 0 := by
  by_cases hb : 1 ≤ b
  · rw [ctor_ok T group name m b hb hm] at h0
    injection h0 with h0
    subst h0
    exact ⟨⟨hm, hb, by simp, by simp, rfl, rfl, rfl, rfl, Nat.zero_le _⟩, rfl, rfl, rfl, rfl⟩
  · have hlt : b < 1 := by omega
    simp [Writer.ctor, hlt] at h0

/-- A run from a state described by `Holds` succeeds, and the rows it leaves are
the rows it found followed by the resized arguments of its `add` calls. -/
theorem run_holds {T : Type} [GetEmpty T] (ops : List (Op T)) (w : Writer T)
    (c p : List (List T)) (h : w.Holds c p) :
    ∃ w' c' p', w.run ops = .ok w' ∧ w'.Holds c' p' ∧
      w'._max_length = w._max_length ∧ w'._batch_size = w._batch_size ∧
      c' ++ p' = c ++ p ++ (Op.adds ops).map (fun jet => resize jet w._max_length get_empty) ∧
      c.length ≤ c'.length := by
  induction ops generalizing w c p with
  | nil => exact ⟨w, c, p, rfl, h, rfl, rfl, by simp [Op.adds], Nat.le_refl _⟩
  | cons op ops ih =>
    cases op with
    | add jet =>
      obtain ⟨w1, ha, hm1, hb1, hfull, hpart⟩ := add_holds w c p h jet
      by_cases hf : p.length = w._batch_size
      · obtain ⟨w2, c2, p2, hr, h2, hm2, hb2, hrows, hlen⟩ := ih w1 _ _ (hfull hf).1
        refine ⟨w2, c2, p2, ?_, h2, hm2.trans hm1, hb2.trans hb1, ?_, ?_⟩
        · simp only [Writer.run, Writer.step, ha, hr]
        · rw [hrows, hm1]; simp [Op.adds]
        · rw [List.length_append] at hlen; omega
      · obtain ⟨w2, c2, p2, hr, h2, hm2, hb2, hrows, hlen⟩ := ih w1 _ _ (hpart hf).1
        refine ⟨w2, c2, p2, ?_, h2, hm2.trans hm1, hb2.trans hb1, ?_, hlen⟩
        · simp only [Writer.run, Writer.step, ha, hr]
        · rw [hrows, hm1]; simp [Op.adds]
    | flush =>
      obtain ⟨w1, hfl, h1, hm1, hb1, _, _⟩ := flush_holds w c p h
      obtain ⟨w2, c2, p2, hr, h2, hm2, hb2, hrows, hlen⟩ := ih w1 _ _ h1
      refine ⟨w2, c2, p2, ?_, h2, hm2.trans hm1, hb2.trans hb1, ?_, ?_⟩
      · simp only [Writer.run, Writer.step, hfl, hr]
      · rw [hrows, hm1]; simp [Op.adds]
      · rw [List.length_append] at hlen; omega

theorem run_append {T : Type} [GetEmpty T] (ops1 ops2 : List (Op T)) (w : Writer T) :
    w.run (ops1 ++ ops2) =
      match w.run ops1 with
      | .error e => .error e
      | .ok w1 => w1.run ops2 := by
  induction ops1 generalizing w with
  | nil => rfl
  | cons op ops1 ih =>
    simp only [List.cons_append, Writer.run]
    cases w.step op with
    | error e => rfl
    | ok w1 => exact ih w1

/-- A run that ends with `flush()` leaves every row in the dataset. -/
theorem run_flush_rows {T : Type} [GetEmpty T] (ops : List (Op T)) (w0 : Writer T)
    (h : w0.Holds [] []) :
    ∃ w, w0.run (ops ++ [Op.flush]) = .ok w ∧
      w._ds.rows = (Op.adds ops).map (fun jet => (resize jet w0._max_length get_empty).map some) ∧
      w._ds.width = w0._max_length ∧ w._buffer = [] ∧ w._offset = (Op.adds ops).length := by
  obtain ⟨w1, c1, p1, hr, h1, hm1, _, hrows, _⟩ := run_holds ops w0 [] [] h
  obtain ⟨w2, hf, h2, hm2, _, _, _⟩ := flush_holds w1 c1 p1 h1
  refine ⟨w2, ?_, ?_, ?_, ?_, ?_⟩
  · rw [run_append, hr]
    simp only [Writer.run, Writer.step, hf]
  · rw [h2.rows_eq, hrows]
    simp
  · rw [h2.width_eq, hm2, hm1]
  · rw [h2.buffer_eq]; rfl
  · rw [h2.offset_eq, hrows]
    simp

/-- The reference run leaves every row in the dataset. -/
theorem reference_run_rows {T : Type} [GetEmpty T] (seqs : List (List T)) (r0 : Writer T)
    (c : List (List T)) (h : r0.Holds c []) :
    ∃ r, r0.run (flush_after_every_add seqs) = .ok r ∧
      r.Holds (c ++ seqs.map (fun jet => resize jet r0._max_length get_empty)) [] ∧
      r._max_length = r0._max_length := by
  induction seqs generalizing r0 c with
  | nil =>
    refine ⟨r0, rfl, ?_, rfl⟩
    simpa using h
  | cons jet seqs ih =>
    obtain ⟨r1, ha, hm1, _, _, hpart⟩ := add_holds r0 c [] h jet
    have hne : ([] : List (List T)).length ≠ r0._batch_size := by
      have := h.batch_size_pos
      simp only [List.length_nil]
      omega
    obtain ⟨h1, _, _⟩ := hpart hne
    obtain ⟨r2, hf, h2, hm2, _, _, _⟩ := flush_holds r1 _ _ h1
    obtain ⟨r3, hr, h3, hm3⟩ := ih r2 _ h2
    refine ⟨r3, ?_, ?_, by rw [hm3, hm2, hm1]⟩
    · show Writer.run r0 (Op.add jet :: Op.flush :: flush_after_every_add seqs) = _
      simp only [Writer.run, Writer.step, ha, hf, hr]
    · rw [hm2, hm1] at h3
      simpa using h3

/-- A flush of `n ≥ 1` buffered rows in any state: the result, with the dataset
rows written out. -/
theorem flush_spec {T : Type} (w : Writer T) (n : Nat) (hm : 1 ≤ w._max_length)
    (hn : 1 ≤ n) (hbuf : w._buffer.length = n * w._max_length) :
    ∃ w', w.flush = .ok w' ∧
      w'._ds.rows = resize (w._ds.rows.map (fun r => resize r w._max_length none)) w._offset
          (List.replicate w._max_length none)
        ++ (slab_rows w._buffer w._max_length n).map (List.map some) ∧
      w'._offset = w._offset + n ∧ w'._buffer = [] ∧
      w'._max_length = w._max_length ∧ w'._batch_size = w._batch_size ∧
      w'._ds.n_extend = w._ds.n_extend + 1 ∧ w'._ds.n_write = w._ds.n_write + 1 ∧
      w'._ds.width = w._max_length :=
  ⟨_, flush_of_rows w n hm hbuf hn,
    extend_write_rows w._ds w._buffer n w._max_length w._offset hbuf,
    rfl, rfl, rfl, rfl, rfl, rfl, rfl⟩

theorem extend_rows_length {T : Type} (ds : DataSet T) (size : Nat × Nat) :
    (ds.extend size).rows.length = size.1 := by
  unfold DataSet.extend
  exact resize_length _ _ _

/-- The call `flush()` returns normally whenever the buffer is a whole number of rows, and
leaves the buffer empty. -/
theorem flush_total {T : Type} (w : Writer T) (hm : 1 ≤ w._max_length)
    (hmod : w._buffer.length % w._max_length = 0) :
    ∃ w1, w.flush = .ok w1 ∧ w1._buffer = [] ∧
      w1._max_length = w._max_length ∧ w1._batch_size = w._batch_size := by
  have hbuf : w._buffer.length = (w._buffer.length / w._max_length) * w._max_length :=
    (Nat.div_mul_cancel (Nat.dvd_of_mod_eq_zero hmod)).symm
  by_cases hn : w._buffer.length / w._max_length = 0
  · have hnil : w._buffer = [] := by
      rw [hn, Nat.zero_mul] at hbuf
      exact List.eq_nil_of_length_eq_zero hbuf
    exact ⟨w, flush_of_no_rows w hm hnil, hnil, rfl, rfl⟩
  · obtain ⟨w1, hf, _, _, hb1, hm1, hbs1, _⟩ :=
      flush_spec w (w._buffer.length / w._max_length) hm (Nat.pos_of_ne_zero hn) hbuf
    exact ⟨w1, hf, hb1, hm1, hbs1⟩

/-- The buffer after a successful `add`: whole rows, then the resized argument. -/
theorem add_buffer {T : Type} [GetEmpty T] (w : Writer T) (jet : List T)
    (hm : 1 ≤ w._max_length) (hmod : w._buffer.length % w._max_length = 0) :
    ∃ w' pre, w.add jet = .ok w' ∧
      w'._buffer = pre ++ resize jet w._max_length get_empty ∧
      pre.length % w._max_length = 0 ∧ w'._max_length = w._max_length := by
  have hbuf : w._buffer.length = (w._buffer.length / w._max_length) * w._max_length :=
    (Nat.div_mul_cancel (Nat.dvd_of_mod_eq_zero hmod)).symm
  have hs := buffer_size_of_rows w _ hm hbuf
  by_cases hfull : w._buffer.length / w._max_length = w._batch_size
  · obtain ⟨w1, hf, hb1, hm1, _⟩ := flush_total w hm hmod
    refine ⟨{ w1 with _buffer := w1._buffer ++ resize jet w1._max_length get_empty }, [],
      ?_, ?_, by simp, hm1⟩
    · unfold Writer.add
      rw [hs]
      simp only [if_pos hfull, hf]
    · show w1._buffer ++ resize jet w1._max_length get_empty = _
      rw [hb1, hm1]
  · refine ⟨{ w with _buffer := w._buffer ++ resize jet w._max_length get_empty }, w._buffer,
      ?_, rfl, hmod, rfl⟩
    unfold Writer.add
    rw [hs]
    simp only [if_neg hfull]

theorem slab_row_last {α : Type} (pre row : List α) (m k : Nat)
    (hpre : pre.length = k * m) (hrow : row.length = m) :
    slab_row (pre ++ row) m k = row := by
  unfold slab_row
  rw [List.drop_left' hpre, ← hrow, List.take_length]

/-! ## Lemmas on the rank-1 writer -/

theorem extend_write_cells {T : Type} (ds : DataSet1 T) (buf : List T) (o : Nat) :
    ((ds.extend (buf.length + o)).write buf buf.length o).cells
      = resize ds.cells o none ++ buf.map some := by
  apply List.ext_getElem?
  intro i
  unfold DataSet1.write DataSet1.extend
  dsimp only
  rw [List.getElem?_mapIdx, getElem?_resize]
  by_cases hi : i < o
  · have h1 : i < buf.length + o := by omega
    have h2 : ¬ (o ≤ i ∧ i < o + buf.length) := by omega
    rw [if_pos h1, Option.map_some', if_neg h2,
      List.getElem?_append_left (by rw [resize_length]; exact hi), getElem?_resize, if_pos hi]
  · by_cases hi2 : i < o + buf.length
    · have h1 : i < buf.length + o := by omega
      have h2 : o ≤ i ∧ i < o + buf.length := by omega
      rw [if_pos h1, Option.map_some', if_pos h2,
        List.getElem?_append_right (by rw [resize_length]; omega), resize_length,
        List.getElem?_map, List.getElem?_eq_getElem (by omega)]
      rfl
    · have h1 : ¬ i < buf.length + o := by omega
      rw [if_neg h1, Option.map_none']
      symm
      apply List.getElem?_eq_none
      simp only [List.length_append, resize_length, List.length_map]
      omega

theorem flush1_of_nil {T : Type} (w : Writer1d T) (h : w._buffer = []) : w.flush = w := by
  unfold Writer1d.flush Writer1d.buffer_size
  rw [h]
  rfl

theorem flush1_of_ne_nil {T : Type} (w : Writer1d T) (h : w._buffer ≠ []) :
    w.flush = { w with
      _ds := (w._ds.extend (w._buffer.length + w._offset)).write w._buffer
               w._buffer.length w._offset
      _offset := w._offset + w._buffer.length
      _buffer := [] } := by
  have h0 : ¬ w._buffer.length = 0 := fun h0 => h (List.eq_nil_of_length_eq_zero h0)
  unfold Writer1d.flush Writer1d.buffer_size
  rw [if_neg h0]

theorem flush1_buffer {T : Type} (w : Writer1d T) : w.flush._buffer = [] := by
  by_cases h : w._buffer = []
  · rw [flush1_of_nil w h, h]
  · rw [flush1_of_ne_nil w h]

theorem flush1_holds {T : Type} (w : Writer1d T) (c : List T) (h : w.Holds c) :
    w.flush.Holds (c ++ w._buffer) ∧ w.flush._batch_size = w._batch_size := by
  by_cases hb : w._buffer = []
  · rw [flush1_of_nil w hb, hb, List.append_nil]
    exact ⟨h, rfl⟩
  · rw [flush1_of_ne_nil w hb]
    refine ⟨⟨h.batch_size_pos, ?_, ?_, Nat.zero_le _⟩, rfl⟩
    · show ((w._ds.extend (w._buffer.length + w._offset)).write w._buffer
          w._buffer.length w._offset).cells = _
      rw [extend_write_cells, resize_of_length_eq _ _ _ (by rw [h.cells_eq, List.length_map,
        h.offset_eq]), h.cells_eq, List.map_append]
    · show w._offset + w._buffer.length = (c ++ w._buffer).length
      rw [h.offset_eq, List.length_append]

theorem add1_holds {T : Type} (w : Writer1d T) (c : List T) (h : w.Holds c) (jet : T) :
    (w.add jet)._batch_size = w._batch_size ∧
    (w._buffer.length = w._batch_size →
      (w.add jet).Holds (c ++ w._buffer) ∧ (w.add jet)._buffer = [jet]) ∧
    (w._buffer.length ≠ w._batch_size →
      (w.add jet).Holds c ∧ (w.add jet)._buffer = w._buffer ++ [jet] ∧
      (w.add jet)._ds = w._ds ∧ (w.add jet)._offset = w._offset) := by
  by_cases hfull : w._buffer.length = w._batch_size
  · have hadd : w.add jet = { w.flush with _buffer := w.flush._buffer ++ [jet] } := by
      unfold Writer1d.add Writer1d.buffer_size
      simp only [if_pos hfull]
    obtain ⟨h1, hb1⟩ := flush1_holds w c h
    rw [hadd]
    refine ⟨hb1, fun _ => ⟨⟨h1.batch_size_pos, h1.cells_eq, h1.offset_eq, ?_⟩, ?_⟩,
      fun hne => absurd hfull hne⟩
    · show (w.flush._buffer ++ [jet]).length ≤ w.flush._batch_size
      rw [flush1_buffer]
      exact h1.batch_size_pos
    · show w.flush._buffer ++ [jet] = [jet]
      rw [flush1_buffer]
      rfl
  · have hadd : w.add jet = { w with _buffer := w._buffer ++ [jet] } := by
      unfold Writer1d.add Writer1d.buffer_size
      simp only [if_neg hfull]
    rw [hadd]
    refine ⟨rfl, fun he => absurd he hfull, fun _ => ⟨⟨h.batch_size_pos, h.cells_eq,
      h.offset_eq, ?_⟩, rfl, rfl, rfl⟩⟩
    show (w._buffer ++ [jet]).length ≤ w._batch_size
    have := h.buffer_le
    rw [List.length_append, List.length_singleton]
    omega

theorem ctor1_ok (T : Type) (group : CommonFG) (name : String) (b : Nat) (hb : 1 ≤ b) :
    Writer1d.ctor T group name b =
      (.ok { _batch_size := b, _offset := 0, _buffer := [],
             _ds := { cells := [], n_extend := 0, n_write := 0, closed := false } },
       ({ datasets := group.datasets ++ [name] } : CommonFG)) := by
  have h : ¬ b < 1 := by omega
  have hc : (0 : Nat) ∉ [b] := by
    simp only [List.mem_singleton]
    omega
  unfold Writer1d.ctor
  rw [if_neg h]
  simp only [setChunk_ok _ hc]
  rfl

theorem ctor_error (T : Type) (group : CommonFG) (name : String) (m b : Nat) (hb : b < 1) :
    Writer.ctor T group name m b = (.error (.logic_error "batch size must be > 0"), group) := by
  unfold Writer.ctor
  rw [if_pos hb]

theorem ctor1_error (T : Type) (group : CommonFG) (name : String) (b : Nat) (hb : b < 1) :
    Writer1d.ctor T group name b = (.error (.logic_error "batch size must be > 0"), group) := by
  unfold Writer1d.ctor
  rw [if_pos hb]

/-! ## Lemmas on flushing an empty buffer -/

theorem buffer_size_ok {T : Type} (w : Writer T) (n : Nat) (h : w.buffer_size = .ok n) :
    1 ≤ w._max_length ∧ w._buffer.length = n * w._max_length := by
  unfold Writer.buffer_size at h
  by_cases h0 : w._max_length = 0
  · rw [if_pos h0] at h
    cases h
  · rw [if_neg h0] at h
    by_cases hmod : w._buffer.length % w._max_length ≠ 0
    · rw [if_pos hmod] at h
      cases h
    · rw [if_neg hmod] at h
      injection h with h
      rw [← h]
      exact ⟨Nat.pos_of_ne_zero h0,
        (Nat.div_mul_cancel (Nat.dvd_of_mod_eq_zero (not_not.mp hmod))).symm⟩

theorem flush_ok_of_nil {T : Type} (w w' : Writer T) (hbuf : w._buffer = [])
    (h : w.flush = .ok w') : w' = w := by
  unfold Writer.flush at h
  cases hs : w.buffer_size with
  | error e => rw [hs] at h; cases h
  | ok n =>
    obtain ⟨_, hlen⟩ := buffer_size_ok w n hs
    rw [hbuf, List.length_nil] at hlen
    have hn : n = 0 := by
      rcases Nat.mul_eq_zero.mp hlen.symm with h1 | h1
      · exact h1
      · omega
    rw [hs] at h
    simp only [hn, if_true] at h
    injection h with h
    exact h.symm

theorem flush_ok_buffer {T : Type} (w w' : Writer T) (h : w.flush = .ok w') :
    1 ≤ w'._max_length ∧ w'._buffer = [] := by
  cases hs : w.buffer_size with
  | error e =>
    unfold Writer.flush at h
    rw [hs] at h
    cases h
  | ok n =>
    obtain ⟨hm, hlen⟩ := buffer_size_ok w n hs
    by_cases hn : n = 0
    · have hnil : w._buffer = [] := by
        rw [hn, Nat.zero_mul] at hlen
        exact List.eq_nil_of_length_eq_zero hlen
      rw [flush_of_no_rows w hm hnil] at h
      injection h with h
      rw [← h]
      exact ⟨hm, hnil⟩
    · rw [flush_of_rows w n hm hlen (Nat.pos_of_ne_zero hn)] at h
      injection h with h
      rw [← h]
      exact ⟨hm, rfl⟩

theorem run_flushes_ok {T : Type} [GetEmpty T] (k : Nat) (w w' : Writer T)
    (hbuf : w._buffer = []) (h : w.run (List.replicate k Op.flush) = .ok w') : w' = w := by
  induction k with
  | zero =>
    injection h with h
    exact h.symm
  | succ k ih =>
    rw [List.replicate_succ] at h
    simp only [Writer.run, Writer.step] at h
    cases hf : w.flush with
    | error e => rw [hf] at h; cases h
    | ok w1 =>
      rw [hf] at h
      have h1 := flush_ok_of_nil w w1 hbuf hf
      subst h1
      exact ih h

theorem run_flushes {T : Type} [GetEmpty T] (k : Nat) (w : Writer T)
    (hm : 1 ≤ w._max_length) (hbuf : w._buffer = []) :
    w.run (List.replicate k Op.flush) = .ok w := by
  induction k with
  | zero => rfl
  | succ k ih =>
    rw [List.replicate_succ]
    simp only [Writer.run, Writer.step, flush_of_no_rows w hm hbuf]
    exact ih

theorem run1_flushes {T : Type} (k : Nat) (w : Writer1d T) (hbuf : w._buffer = []) :
    w.run (List.replicate k Op1.flush) = w := by
  induction k with
  | zero => rfl
  | succ k ih =>
    rw [List.replicate_succ]
    unfold Writer1d.run at ih ⊢
    rw [List.foldl_cons]
    show List.foldl Writer1d.step w.flush _ = w
    rw [flush1_of_nil w hbuf]
    exact ih

/-! ## Reachable states -/

theorem step_of_zero {T : Type} [GetEmpty T] (w : Writer T) (op : Op T)
    (h : w._max_length = 0) : w.step op = .error .division_by_zero := by
  have hs : w.buffer_size = .error .division_by_zero := by
    unfold Writer.buffer_size
    rw [if_pos h]
  cases op with
  | add jet =>
    show w.add jet = _
    unfold Writer.add
    rw [hs]
  | flush =>
    show w.flush = _
    unfold Writer.flush
    rw [hs]

theorem run_of_zero {T : Type} [GetEmpty T] (w w' : Writer T) (ops : List (Op T))
    (h : w._max_length = 0) (hr : w.run ops = .ok w') : w' = w := by
  cases ops with
  | nil =>
    injection hr with hr
    exact hr.symm
  | cons op ops =>
    simp only [Writer.run, step_of_zero w op h] at hr
    cases hr

/-- Every state a run reaches from a constructed writer is described by `Holds`,
with rows the resized arguments of the `add` calls so far.  The case
`max_length = 0` is kept in the statement for the proofs that split on it; the
constructor does not return such a writer (`ctor_zero`). -/
theorem reach_cases {T : Type} [GetEmpty T] (group : CommonFG) (name : String) (m b : Nat)
    (ops : List (Op T)) (w0 w : Writer T)
    (h0 : (Writer.ctor T group name m b).1 = .ok w0) (hr : w0.run ops = .ok w) :
    w._max_length = m ∧ w._batch_size = b ∧ 1 ≤ b ∧
    ((m = 0 ∧ w = w0) ∨
     (1 ≤ m ∧ ∃ c p, w.Holds c p ∧
        c ++ p = (Op.adds ops).map (fun jet => resize jet m get_empty))) := by
  have hb : 1 ≤ b := by
    by_contra hb
    rw [ctor_error T group name m b (by omega)] at h0
    cases h0
  by_cases hm : m = 0
  · rw [ctor_zero T group name m b hb hm] at h0
    cases h0
  · have hm1 : 1 ≤ m := Nat.pos_of_ne_zero hm
    obtain ⟨hh, hwm, hwb, _, _⟩ := ctor_holds group name m b hm1 w0 h0
    obtain ⟨w', c, p, hr', h', hm', hb', hrows, _⟩ := run_holds ops w0 [] [] hh
    rw [hr] at hr'
    injection hr' with hr'
    subst hr'
    refine ⟨hm'.trans hwm, hb'.trans hwb, hb, Or.inr ⟨hm1, c, p, h', ?_⟩⟩
    rw [hrows, hwm]
    rfl

theorem step_offset_le {T : Type} [GetEmpty T] (w w' : Writer T) (c p : List (List T))
    (h : w.Holds c p) (op : Op T) (hs : w.step op = .ok w') :
    w._offset ≤ w'._offset ∧ w'._offset = w'._ds.rows.length := by
  cases op with
  | add jet =>
    obtain ⟨w1, ha, _, _, hfull, hpart⟩ := add_holds w c p h jet
    have he : w' = w1 := by
      have : w.add jet = .ok w' := hs
      rw [ha] at this
      injection this with this
      exact this.symm
    subst he
    by_cases hf : p.length = w._batch_size
    · obtain ⟨h1, _, _⟩ := hfull hf
      rw [h1.offset_eq, h1.rows_eq, h.offset_eq, List.length_map, List.length_append]
      exact ⟨Nat.le_add_right _ _, rfl⟩
    · obtain ⟨h1, _, ho⟩ := hpart hf
      rw [h1.offset_eq, h1.rows_eq, h.offset_eq, List.length_map]
      exact ⟨Nat.le_refl _, rfl⟩
  | flush =>
    obtain ⟨w1, hf, h1, _⟩ := flush_holds w c p h
    have he : w' = w1 := by
      have : w.flush = .ok w' := hs
      rw [hf] at this
      injection this with this
      exact this.symm
    subst he
    rw [h1.offset_eq, h1.rows_eq, h.offset_eq, List.length_map, List.length_append]
    exact ⟨Nat.le_add_right _ _, rfl⟩

theorem step1_holds {T : Type} (w : Writer1d T) (c : List T) (h : w.Holds c) (op : Op1 T) :
    ∃ c', (w.step op).Holds c' ∧ c.length ≤ c'.length ∧
      (w.step op)._batch_size = w._batch_size := by
  cases op with
  | add jet =>
    obtain ⟨hb, hfull, hpart⟩ := add1_holds w c h jet
    by_cases hf : w._buffer.length = w._batch_size
    · exact ⟨_, (hfull hf).1, by rw [List.length_append]; exact Nat.le_add_right _ _, hb⟩
    · exact ⟨_, (hpart hf).1, Nat.le_refl _, hb⟩
  | flush =>
    obtain ⟨h1, hb⟩ := flush1_holds w c h
    exact ⟨_, h1, by rw [List.length_append]; exact Nat.le_add_right _ _, hb⟩

theorem run1_holds {T : Type} (ops : List (Op1 T)) (w : Writer1d T) (c : List T)
    (h : w.Holds c) :
    ∃ c', (w.run ops).Holds c' ∧ c.length ≤ c'.length ∧
      (w.run ops)._batch_size = w._batch_size := by
  induction ops generalizing w c with
  | nil => exact ⟨c, h, Nat.le_refl _, rfl⟩
  | cons op ops ih =>
    obtain ⟨c1, h1, hl1, hb1⟩ := step1_holds w c h op
    obtain ⟨c2, h2, hl2, hb2⟩ := ih (w.step op) c1 h1
    exact ⟨c2, h2, Nat.le_trans hl1 hl2, hb2.trans hb1⟩

theorem ctor1_holds {T : Type} (group : CommonFG) (name : String) (b : Nat)
    (w0 : Writer1d T) (h0 : (Writer1d.ctor T group name b).1 = .ok w0) :
    w0.Holds [] ∧ w0._batch_size = b ∧ 1 ≤ b ∧ w0._offset = 0 ∧ w0._buffer = [] ∧
      w0._ds.n_extend = 0 ∧ w0._ds.n_write = 0 := by
  have hb : 1 ≤ b := by
    by_contra hb
    rw [ctor1_error T group name b (by omega)] at h0
    cases h0
  rw [ctor1_ok T group name b hb] at h0
  injection h0 with h0
  subst h0
  exact ⟨⟨hb, rfl, rfl, Nat.zero_le _⟩, rfl, hb, rfl, rfl, rfl, rfl⟩

/-! ## Lemmas on the number of buffered rows -/

theorem buffer_size_of_holds {T : Type} (w : Writer T) (c p : List (List T))
    (h : w.Holds c p) : w.buffer_size = .ok p.length :=
  buffer_size_of_rows w p.length h.max_length_pos
    (by rw [h.buffer_eq, length_flatten_of_width w._max_length p h.pending_width])

/-- C1: for a rank-2 writer with `max_length ≥ 1` and `batch_size ≥ 1`, any list
of `add` calls with `flush` calls placed anywhere between them, followed by a
final `flush`, returns normally; the dataset then has one row per `add`, in call
order, each the resized argument, and has the same rows and width as the
dataset of the reference run that flushes after every `add`, whatever batch
size `b'` that reference run uses. -/
theorem batching_invisible (T : Type) [GetEmpty T] (group : CommonFG) (name : String)
    (m b b' : Nat) (ops : List (Op T)) (hm : 1 ≤ m) (hb : 1 ≤ b) (hb' : 1 ≤ b') :
    ∃ w0 w r0 r,
      (Writer.ctor T group name m b).1 = .ok w0 ∧
      w0.run (ops ++ [Op.flush]) = .ok w ∧
      (Writer.ctor T group name m b').1 = .ok r0 ∧
      r0.run (flush_after_every_add (Op.adds ops)) = .ok r ∧
      w._ds.rows.length = (Op.adds ops).length ∧
      w._ds.rows = (Op.adds ops).map (fun jet => (resize jet m get_empty).map some) ∧
      w._ds.rows = r._ds.rows ∧ w._ds.width = r._ds.width := by
  have hw0 := ctor_ok T group name m b hb hm
  have hr0 := ctor_ok T group name m b' hb' hm
  obtain ⟨hw, hwm, _⟩ := ctor_holds group name m b hm _ (by rw [hw0])
  obtain ⟨hr, hrm, _⟩ := ctor_holds group name m b' hm _ (by rw [hr0])
  obtain ⟨w, hrun, hrows, hwidth, _, _⟩ := run_flush_rows ops _ hw
  obtain ⟨r, hrrun, hrh, hrm'⟩ := reference_run_rows (Op.adds ops) _ [] hr
  refine ⟨_, w, _, r, by rw [hw0], hrun, by rw [hr0], hrrun, ?_, hrows, ?_, ?_⟩
  · rw [hrows, List.length_map]
  · rw [hrows, hrh.rows_eq]
    simp
  · rw [hwidth, hrh.width_eq, hrm']

/-- C1 at a concrete input: `sample_ops` with `max_length = 2`, batch size 2,
against a reference run with batch size 1. -/
theorem batching_invisible_witness :
    ∃ w0 w r0 r : Writer Track,
      (Writer.ctor Track ⟨[]⟩ "tracks" 2 2).1 = .ok w0 ∧
      w0.run (sample_ops ++ [Op.flush]) = .ok w ∧
      (Writer.ctor Track ⟨[]⟩ "tracks" 2 1).1 = .ok r0 ∧
      r0.run (flush_after_every_add (Op.adds sample_ops)) = .ok r ∧
      w._ds.rows.length = (Op.adds sample_ops).length ∧
      w._ds.rows = (Op.adds sample_ops).map (fun jet => (resize jet 2 get_empty).map some) ∧
      w._ds.rows = r._ds.rows ∧ w._ds.width = r._ds.width :=
  batching_invisible Track ⟨[]⟩ "tracks" 2 2 1 sample_ops (by decide) (by decide) (by decide)

/-! ## C3: what a flush of a non-empty buffer does -/

/-- C3: in any state of a rank-2 writer with `max_length ≥ 1` whose buffer holds
`n ≥ 1` rows, `flush()` returns normally; its `extend` call makes the first
dimension exactly `offset + n`, which is the extent the dataset has afterwards;
row `offset + i` of the dataset is row `i` of the buffer for every `i < n`; every
row below `offset` (of the dataset's width `max_length`) is as it was; `_offset`
is `offset + n`; the buffer is empty; one `extend` and one `write` were issued. -/
theorem flush_postcondition (T : Type) (w : Writer T) (n : Nat)
    (hm : 1 ≤ w._max_length) (hn : 1 ≤ n) (hbuf : w._buffer.length = n * w._max_length) :
    ∃ w', w.flush = .ok w' ∧
      (w._ds.extend (n + w._offset, w._max_length)).rows.length = w._offset + n ∧
      w'._ds.rows.length = w._offset + n ∧
      (∀ i, i < n →
        w'._ds.rows[w._offset + i]? = some ((slab_row w._buffer w._max_length i).map some)) ∧
      (∀ i r, i < w._offset → w._ds.rows[i]? = some r → r.length = w._max_length →
        w'._ds.rows[i]? = some r) ∧
      w'._offset = w._offset + n ∧ w'._buffer = [] ∧
      w'._ds.n_extend = w._ds.n_extend + 1 ∧ w'._ds.n_write = w._ds.n_write + 1 := by
  obtain ⟨w', hf, hrows, hoff, hbuf', _, _, hext, hwr, _⟩ := flush_spec w n hm hn hbuf
  refine ⟨w', hf, ?_, ?_, ?_, ?_, hoff, hbuf', hext, hwr⟩
  · rw [extend_rows_length]
    exact Nat.add_comm _ _
  · rw [hrows, List.length_append, resize_length, List.length_map]
    simp [slab_rows]
  · intro i hi
    rw [hrows, List.getElem?_append_right (by rw [resize_length]; omega), resize_length,
      Nat.add_sub_cancel_left, List.getElem?_map]
    unfold slab_rows
    rw [List.getElem?_map, List.getElem?_range hi]
    rfl
  · intro i r hi hr hlen
    rw [hrows, List.getElem?_append_left (by rw [resize_length]; exact hi), getElem?_resize,
      if_pos hi, List.getElem?_map, hr]
    simp only [Option.map_some', Option.getD_some]
    rw [resize_of_length_eq r _ _ hlen]

/-- C3 at a concrete input: `sample_writer` holds two buffered rows at offset 1. -/
theorem flush_postcondition_witness :
    ∃ w', sample_writer.flush = .ok w' ∧
      (sample_writer._ds.extend (2 + sample_writer._offset,
        sample_writer._max_length)).rows.length = sample_writer._offset + 2 ∧
      w'._ds.rows.length = sample_writer._offset + 2 ∧
      (∀ i, i < 2 →
        w'._ds.rows[sample_writer._offset + i]?
          = some ((slab_row sample_writer._buffer sample_writer._max_length i).map some)) ∧
      (∀ i r, i < sample_writer._offset → sample_writer._ds.rows[i]? = some r →
        r.length = sample_writer._max_length → w'._ds.rows[i]? = some r) ∧
      w'._offset = sample_writer._offset + 2 ∧ w'._buffer = [] ∧
      w'._ds.n_extend = sample_writer._ds.n_extend + 1 ∧
      w'._ds.n_write = sample_writer._ds.n_write + 1 :=
  flush_postcondition Track sample_writer 2 (by decide) (by decide) (by decide)

/-! ## C2: the row that `add` builds -/

/-- C2: in any state of a rank-2 writer with `max_length = m ≥ 1` whose buffer is
a whole number of rows, `add(s)` returns normally and the buffer then ends with
a row of exactly `m` entries; entry `i` of that row is `s[i]` for
`i < min (length s) m` and the sentinel `get_empty` for `length s ≤ i < m`, so
a longer `s` is cut to its first `m` entries; the next `flush()` stores that row
as the last row of the dataset.  Scenario A: with `m = 3` and batch size 2,
`add([(1,true),(2,true)])`, `add([(3,true)])`, `flush()`, `close()` leaves exactly
the rows `[(1,true),(2,true),(0,false)]` and `[(3,true),(0,false),(0,false)]`. -/
theorem add_pad_or_truncate :
    (∀ (T : Type) [GetEmpty T] (w : Writer T) (s : List T),
      1 ≤ w._max_length → w._buffer.length % w._max_length = 0 →
      ∃ w' w'' pre row,
        w.add s = .ok w' ∧ w'._buffer = pre ++ row ∧
        row.length = w._max_length ∧
        (∀ i, i < min s.length w._max_length → row[i]? = s[i]?) ∧
        (∀ i, s.length ≤ i → i < w._max_length → row[i]? = some get_empty) ∧
        (w._max_length < s.length → row = s.take w._max_length) ∧
        w'.flush = .ok w'' ∧
        w''._ds.rows.length = w''._offset ∧
        w''._ds.rows[w''._offset - 1]? = some (row.map some)) ∧
    (∃ w0 w : Writer Track,
      (Writer.ctor Track ⟨[]⟩ "tracks" 3 2).1 = .ok w0 ∧
      w0.run [Op.add [⟨1, true⟩, ⟨2, true⟩], Op.add [⟨3, true⟩], Op.flush] = .ok w ∧
      w.close._ds.rows =
        [[some ⟨1, true⟩, some ⟨2, true⟩, some ⟨0, false⟩],
         [some ⟨3, true⟩, some ⟨0, false⟩, some ⟨0, false⟩]]) := by
  refine ⟨?_, ⟨_, _, rfl, rfl, rfl⟩⟩
  intro T _ w s hm hmod
  obtain ⟨w', pre, ha, hb', hpre, hm'⟩ := add_buffer w s hm hmod
  obtain ⟨k, hk⟩ : ∃ k, pre.length = k * w._max_length :=
    ⟨_, (Nat.div_mul_cancel (Nat.dvd_of_mod_eq_zero hpre)).symm⟩
  have hlen : w'._buffer.length = (k + 1) * w'._max_length := by
    rw [hb', hm', List.length_append, resize_length, Nat.add_mul, Nat.one_mul, ← hk]
  obtain ⟨w'', hf, hrows, hoff, _⟩ :=
    flush_spec w' (k + 1) (by rw [hm']; exact hm) (Nat.succ_pos k) hlen
  refine ⟨w', w'', pre, resize s w._max_length get_empty, ha, hb', resize_length _ _ _,
    ?_, ?_, ?_, hf, ?_, ?_⟩
  · intro i hi
    have h1 : i < w._max_length := lt_of_lt_of_le hi (Nat.min_le_right _ _)
    have h2 : i < s.length := lt_of_lt_of_le hi (Nat.min_le_left _ _)
    rw [getElem?_resize, if_pos h1, List.getElem?_eq_getElem h2]
    rfl
  · intro i hi1 hi2
    rw [getElem?_resize, if_pos hi2, List.getElem?_eq_none hi1]
    rfl
  · intro hlong
    unfold resize
    rw [Nat.sub_eq_zero_of_le (Nat.le_of_lt hlong)]
    simp
  · rw [hrows, hoff, List.length_append, resize_length, List.length_map]
    simp [slab_rows]
  · have hidx : w''._offset - 1 = w'._offset + k := by rw [hoff]; omega
    rw [hidx, hrows, List.getElem?_append_right (by rw [resize_length]; omega), resize_length,
      Nat.add_sub_cancel_left, List.getElem?_map]
    unfold slab_rows
    rw [List.getElem?_map, List.getElem?_range (Nat.lt_succ_self k)]
    simp only [Option.map_some']
    rw [hm', hb', slab_row_last pre _ w._max_length k hk (resize_length _ _ _)]

/-- C2 at a concrete input: a sequence of three records added to `sample_writer`,
whose `max_length` is 2. -/
theorem add_pad_or_truncate_witness :
    ∃ w' w'' pre row,
      sample_writer.add [⟨8, true⟩, ⟨9, true⟩, ⟨10, true⟩] = .ok w' ∧
      w'._buffer = pre ++ row ∧
      row.length = sample_writer._max_length ∧
      (∀ i, i < min ([⟨8, true⟩, ⟨9, true⟩, ⟨10, true⟩] : List Track).length
          sample_writer._max_length →
        row[i]? = ([⟨8, true⟩, ⟨9, true⟩, ⟨10, true⟩] : List Track)[i]?) ∧
      (∀ i, ([⟨8, true⟩, ⟨9, true⟩, ⟨10, true⟩] : List Track).length ≤ i →
        i < sample_writer._max_length → row[i]? = some get_empty) ∧
      (sample_writer._max_length < ([⟨8, true⟩, ⟨9, true⟩, ⟨10, true⟩] : List Track).length →
        row = ([⟨8, true⟩, ⟨9, true⟩, ⟨10, true⟩] : List Track).take sample_writer._max_length) ∧
      w'.flush = .ok w'' ∧
      w''._ds.rows.length = w''._offset ∧
      w''._ds.rows[w''._offset - 1]? = some (row.map some) :=
  add_pad_or_truncate.1 Track sample_writer [⟨8, true⟩, ⟨9, true⟩, ⟨10, true⟩]
    (by decide) (by decide)

/-! ## C4: `flush()` on an empty buffer -/

/-- C4: `flush()` on an empty buffer changes nothing, for both writers: whenever
it returns, the writer (offset, buffer, dataset, and with the dataset its counts
of `extend` and `write` calls) is exactly as before, and with `max_length ≥ 1` it
does return (the rank-1 `flush` always does).  Hence a second `flush()` right
after a `flush()` changes nothing, and a freshly constructed writer that
receives only `flush()` calls and then `close()` has a dataset of 0 rows that
received no `extend` and no `write`. -/
theorem flush_empty_noop :
    (∀ (T : Type) (w w' : Writer T), w._buffer = [] → w.flush = .ok w' → w' = w) ∧
    (∀ (T : Type) (w : Writer T), w._buffer = [] → 1 ≤ w._max_length → w.flush = .ok w) ∧
    (∀ (T : Type) (w : Writer1d T), w._buffer = [] → w.flush = w) ∧
    (∀ (T : Type) (w w' : Writer T), w.flush = .ok w' → w'.flush = .ok w') ∧
    (∀ (T : Type) (w : Writer1d T), w.flush.flush = w.flush) ∧
    (∀ (T : Type) [GetEmpty T] (group : CommonFG) (name : String) (m b k : Nat)
        (w0 : Writer T), (Writer.ctor T group name m b).1 = .ok w0 →
      (∀ w, w0.run (List.replicate k Op.flush) = .ok w →
        w.close._ds.rows = [] ∧ w.close._ds.n_extend = 0 ∧ w.close._ds.n_write = 0) ∧
      (1 ≤ m → w0.run (List.replicate k Op.flush) = .ok w0)) ∧
    (∀ (T : Type) (group : CommonFG) (name : String) (b k : Nat) (w0 : Writer1d T),
      (Writer1d.ctor T group name b).1 = .ok w0 →
      (w0.run (List.replicate k Op1.flush)).close._ds.cells = [] ∧
      (w0.run (List.replicate k Op1.flush)).close._ds.n_extend = 0 ∧
      (w0.run (List.replicate k Op1.flush)).close._ds.n_write = 0) := by
  refine ⟨fun T w w' hbuf h => flush_ok_of_nil w w' hbuf h,
    fun T w hbuf hm => flush_of_no_rows w hm hbuf,
    fun T w hbuf => flush1_of_nil w hbuf, ?_, ?_, ?_, ?_⟩
  · intro T w w' h
    obtain ⟨hm, hbuf⟩ := flush_ok_buffer w w' h
    exact flush_of_no_rows w' hm hbuf
  · intro T w
    exact flush1_of_nil w.flush (flush1_buffer w)
  · intro T _ group name m b k w0 h0
    obtain ⟨hb, hm0⟩ := ctor_ok_inv T group name m b w0 h0
    rw [ctor_ok T group name m b hb hm0] at h0
    injection h0 with h0
    subst h0
    refine ⟨?_, fun hm => run_flushes k _ hm rfl⟩
    intro w hw
    rw [run_flushes_ok k _ w rfl hw]
    exact ⟨rfl, rfl, rfl⟩
  · intro T group name b k w0 h0
    have hb : 1 ≤ b := by
      by_contra hb
      rw [ctor1_error T group name b (by omega)] at h0
      cases h0
    rw [ctor1_ok T group name b hb] at h0
    injection h0 with h0
    subst h0
    rw [run1_flushes k _ rfl]
    exact ⟨rfl, rfl, rfl⟩

/-- C4 at a concrete input: three `flush()` calls on a fresh `Writer<Track>` with
`max_length = 2` and batch size 4 return the fresh writer. -/
theorem flush_empty_noop_witness :
    ∃ w0 : Writer Track, (Writer.ctor Track ⟨[]⟩ "tracks" 2 4).1 = .ok w0 ∧
      w0.run (List.replicate 3 Op.flush) = .ok w0 ∧ w0.flush = .ok w0 ∧
      w0.close._ds.rows = [] :=
  ⟨_, rfl, (flush_empty_noop.2.2.2.2.2.1 Track ⟨[]⟩ "tracks" 2 4 3 _ rfl).2 (by decide),
    flush_empty_noop.2.1 Track _ rfl (by decide), rfl⟩

/-! ## C5: when construction fails -/

/-- C5: the constructor of `Writer` and the constructor of `Writer1d` throw
`std::logic_error` exactly when `batch_size < 1`; when the storage layer does
not fail (no `H5::Exception`) they fail in no other way, and with
`batch_size ≥ 1` they then return; the storage layer fails in the rank-2
constructor exactly for `batch_size ≥ 1` with `max_length = 0` (`setChunk`) and
never in the rank-1 constructor; whenever a constructor fails, the group is as
it was (`createDataSet` was not called); when it returns, `createDataSet` was
called once with the given name, `_offset` is 0 and the buffer is empty. -/
theorem ctor_fails_iff (T : Type) (group : CommonFG) (name : String) (m b : Nat) :
    ((∃ what, (Writer.ctor T group name m b).1 = .error (.logic_error what)) ↔ b < 1) ∧
    ((Writer.ctor T group name m b).1 ≠ .error .h5_exception →
      ((∃ e, (Writer.ctor T group name m b).1 = .error e) ↔ b < 1)) ∧
    (b < 1 → (Writer.ctor T group name m b).2 = group) ∧
    (¬ b < 1 → (Writer.ctor T group name m b).1 ≠ .error .h5_exception →
      ∃ w, (Writer.ctor T group name m b).1 = .ok w ∧
        (Writer.ctor T group name m b).2.datasets = group.datasets ++ [name] ∧
        w._offset = 0 ∧ w._buffer = [] ∧ w._ds.rows = []) ∧
    ((Writer.ctor T group name m b).1 = .error .h5_exception ↔ (¬ b < 1 ∧ m = 0)) ∧
    (∀ e, (Writer.ctor T group name m b).1 = .error e →
      (Writer.ctor T group name m b).2 = group) ∧
    ((∃ what, (Writer1d.ctor T group name b).1 = .error (.logic_error what)) ↔ b < 1) ∧
    ((∃ e, (Writer1d.ctor T group name b).1 = .error e) ↔ b < 1) ∧
    (b < 1 → (Writer1d.ctor T group name b).2 = group) ∧
    (¬ b < 1 → ∃ w, (Writer1d.ctor T group name b).1 = .ok w ∧
      (Writer1d.ctor T group name b).2.datasets = group.datasets ++ [name] ∧
      w._offset = 0 ∧ w._buffer = [] ∧ w._ds.cells = []) ∧
    (Writer1d.ctor T group name b).1 ≠ .error .h5_exception := by
  by_cases hb : b < 1
  · have h2 := ctor_error T group name m b hb
    have h1 := ctor1_error T group name b hb
    refine ⟨⟨fun _ => hb, fun _ => ⟨_, by rw [h2]⟩⟩,
      fun _ => ⟨fun _ => hb, fun _ => ⟨_, by rw [h2]⟩⟩,
      fun _ => by rw [h2], fun h => absurd hb h, ⟨?_, fun h => absurd hb h.1⟩,
      fun _ _ => by rw [h2],
      ⟨fun _ => hb, fun _ => ⟨_, by rw [h1]⟩⟩, ⟨fun _ => hb, fun _ => ⟨_, by rw [h1]⟩⟩,
      fun _ => by rw [h1], fun h => absurd hb h, ?_⟩
    · intro h
      rw [h2] at h
      cases h
    · rw [h1]
      intro h
      cases h
  · have hb1 : 1 ≤ b := by omega
    have h1 := ctor1_ok T group name b hb1
    have h1d : ((∃ what, (Writer1d.ctor T group name b).1 = .error (.logic_error what)) ↔ b < 1) ∧
        ((∃ e, (Writer1d.ctor T group name b).1 = .error e) ↔ b < 1) ∧
        (b < 1 → (Writer1d.ctor T group name b).2 = group) ∧
        (¬ b < 1 → ∃ w, (Writer1d.ctor T group name b).1 = .ok w ∧
          (Writer1d.ctor T group name b).2.datasets = group.datasets ++ [name] ∧
          w._offset = 0 ∧ w._buffer = [] ∧ w._ds.cells = []) ∧
        (Writer1d.ctor T group name b).1 ≠ .error .h5_exception := by
      refine ⟨⟨?_, fun h => absurd h hb⟩, ⟨?_, fun h => absurd h hb⟩, fun h => absurd h hb,
        fun _ => ⟨_, by rw [h1], by rw [h1], rfl, rfl, rfl⟩, ?_⟩
      · rintro ⟨what, h⟩
        rw [h1] at h
        cases h
      · rintro ⟨e, h⟩
        rw [h1] at h
        cases h
      · rw [h1]
        intro h
        cases h
    by_cases hm : m = 0
    · have h2 := ctor_zero T group name m b hb1 hm
      refine ⟨⟨?_, fun h => absurd h hb⟩, fun hne => absurd (by rw [h2]) hne,
        fun h => absurd h hb, fun _ hne => absurd (by rw [h2]) hne,
        ⟨fun _ => ⟨hb, hm⟩, fun _ => by rw [h2]⟩, fun _ _ => by rw [h2], h1d⟩
      rintro ⟨what, h⟩
      rw [h2] at h
      cases h
    · have h2 := ctor_ok T group name m b hb1 (Nat.pos_of_ne_zero hm)
      refine ⟨⟨?_, fun h => absurd h hb⟩, fun _ => ⟨?_, fun h => absurd h hb⟩,
        fun h => absurd h hb, fun _ _ => ⟨_, by rw [h2], by rw [h2], rfl, rfl, rfl⟩,
        ⟨?_, fun h => absurd h.2 hm⟩, ?_, h1d⟩
      · rintro ⟨what, h⟩
        rw [h2] at h
        cases h
      · rintro ⟨e, h⟩
        rw [h2] at h
        cases h
      · intro h
        rw [h2] at h
        cases h
      · intro e h
        rw [h2] at h
        cases h

/-- C5 at a concrete input: batch size 0 (Scenario D) leaves the group as it
was, for both constructors; with batch size 2 and `max_length = 3` the storage
layer does not fail and the constructor returns. -/
theorem ctor_fails_iff_witness :
    (Writer.ctor Track ⟨["jets"]⟩ "tracks" 3 0).2 = ⟨["jets"]⟩ ∧
    (Writer1d.ctor Track ⟨["jets"]⟩ "tracks" 0).2 = ⟨["jets"]⟩ ∧
    (∃ w, (Writer.ctor Track ⟨["jets"]⟩ "tracks" 3 2).1 = .ok w ∧
      (Writer.ctor Track ⟨["jets"]⟩ "tracks" 3 2).2.datasets = ["jets"] ++ ["tracks"] ∧
      w._offset = 0 ∧ w._buffer = [] ∧ w._ds.rows = []) :=
  ⟨(ctor_fails_iff Track ⟨["jets"]⟩ "tracks" 3 0).2.2.1 (by decide),
   (ctor_fails_iff Track ⟨["jets"]⟩ "tracks" 3 0).2.2.2.2.2.2.2.2.1 (by decide),
   (ctor_fails_iff Track ⟨["jets"]⟩ "tracks" 3 2).2.2.2.1 (by decide)
     (by intro h; cases h)⟩

/-! ## C6: the buffer is a whole number of rows -/

/-- C6: in every state that `add` and `flush` calls reach from a successfully
constructed rank-2 writer, the buffer length is a multiple of `max_length`; the
`assert` in `buffer_size()` therefore does not fail, and for `max_length ≥ 1`
`buffer_size()` returns `buffer length / max_length`, which times `max_length`
is the buffer length again. -/
theorem buffer_whole_rows (T : Type) [GetEmpty T] (group : CommonFG) (name : String)
    (m b : Nat) (ops : List (Op T)) (w0 w : Writer T)
    (h0 : (Writer.ctor T group name m b).1 = .ok w0) (hr : w0.run ops = .ok w) :
    w._max_length = m ∧
    w._max_length ∣ w._buffer.length ∧
    w.buffer_size ≠ .error .assertion_failed ∧
    (1 ≤ m →
      w.buffer_size = .ok (w._buffer.length / w._max_length) ∧
      (w._buffer.length / w._max_length) * w._max_length = w._buffer.length) := by
  obtain ⟨hm, _, hb, hcase⟩ := reach_cases group name m b ops w0 w h0 hr
  rcases hcase with ⟨hm0, hw⟩ | ⟨hm1, c, p, hh, _⟩
  · have hpos := (ctor_ok_inv T group name m b w0 h0).2
    omega
  · have hlen : w._buffer.length = p.length * w._max_length := by
      rw [hh.buffer_eq, length_flatten_of_width w._max_length p hh.pending_width]
    have hs := buffer_size_of_rows w p.length hh.max_length_pos hlen
    have hdiv : w._buffer.length / w._max_length = p.length := by
      rw [hlen]
      exact Nat.mul_div_cancel _ hh.max_length_pos
    refine ⟨hm, ⟨p.length, by rw [hlen, Nat.mul_comm]⟩, ?_, fun _ => ⟨?_, ?_⟩⟩
    · rw [hs]
      intro h
      cases h
    · rw [hs, hdiv]
    · rw [hdiv, hlen]

/-- C6 at a concrete input: the state after `sample_ops` on a fresh
`Writer<Track>` with `max_length = 2` and batch size 2. -/
theorem buffer_whole_rows_witness :
    ∃ w0 w : Writer Track,
      (Writer.ctor Track ⟨[]⟩ "tracks" 2 2).1 = .ok w0 ∧ w0.run sample_ops = .ok w ∧
      w._max_length = 2 ∧
      w._max_length ∣ w._buffer.length ∧
      w.buffer_size ≠ .error .assertion_failed ∧
      (1 ≤ 2 →
        w.buffer_size = .ok (w._buffer.length / w._max_length) ∧
        (w._buffer.length / w._max_length) * w._max_length = w._buffer.length) :=
  ⟨_, _, rfl, rfl, buffer_whole_rows Track ⟨[]⟩ "tracks" 2 2 sample_ops _ _ rfl rfl⟩

/-! ## C7: `_offset` is the extent of the dataset -/

/-- C7: for both writers, `_offset` is 0 after construction; no `add` or `flush`
call decreases it; in every reachable state, whenever `flush()` returns (a flush
of rows, a flush of an empty buffer, or the flush that `add` calls on a full
buffer) `_offset` equals the extent of the dataset along its first dimension;
and for `max_length ≥ 1` the rank-2 `flush()` does return. -/
theorem offset_tracks_extent :
    (∀ (T : Type) [GetEmpty T] (group : CommonFG) (name : String) (m b : Nat)
        (ops : List (Op T)) (w0 w : Writer T),
      (Writer.ctor T group name m b).1 = .ok w0 → w0.run ops = .ok w →
      w0._offset = 0 ∧ w0._ds.rows.length = 0 ∧
      w0._offset ≤ w._offset ∧
      (∀ op w', w.step op = .ok w' → w._offset ≤ w'._offset) ∧
      (∀ w', w.flush = .ok w' → w'._offset = w'._ds.rows.length) ∧
      (∀ jet w'', w.buffer_size = .ok w._batch_size → w.add jet = .ok w'' →
        ∃ w', w.flush = .ok w' ∧ w'._offset = w'._ds.rows.length ∧
          w''._offset = w'._offset ∧ w''._ds = w'._ds) ∧
      (1 ≤ m → ∃ w', w.flush = .ok w')) ∧
    (∀ (T : Type) (group : CommonFG) (name : String) (b : Nat)
        (ops : List (Op1 T)) (w0 : Writer1d T),
      (Writer1d.ctor T group name b).1 = .ok w0 →
      w0._offset = 0 ∧ w0._ds.cells.length = 0 ∧
      w0._offset ≤ (w0.run ops)._offset ∧
      (∀ op, (w0.run ops)._offset ≤ ((w0.run ops).step op)._offset) ∧
      (w0.run ops).flush._offset = (w0.run ops).flush._ds.cells.length ∧
      (∀ jet, (w0.run ops).buffer_size = (w0.run ops)._batch_size →
        ((w0.run ops).add jet)._offset = (w0.run ops).flush._offset ∧
        ((w0.run ops).add jet)._ds = (w0.run ops).flush._ds)) := by
  constructor
  · intro T _ group name m b ops w0 w h0 hr
    obtain ⟨hm, _, hb, hcase⟩ := reach_cases group name m b ops w0 w h0 hr
    have hc := ctor_ok T group name m b hb (ctor_ok_inv T group name m b w0 h0).2
    have h00 : w0._offset = 0 ∧ w0._ds.rows.length = 0 := by
      rw [hc] at h0
      injection h0 with h0
      rw [← h0]
      exact ⟨rfl, rfl⟩
    rcases hcase with ⟨hm0, hw⟩ | ⟨hm1, c, p, hh, _⟩
    · have hz : w._max_length = 0 := hm.trans hm0
      refine ⟨h00.1, h00.2, by rw [hw], ?_, ?_, ?_, fun h1 => absurd hm0 (by omega)⟩
      · intro op w' hs
        rw [step_of_zero w op hz] at hs
        cases hs
      · intro w' hf
        have := step_of_zero w Op.flush hz
        rw [show w.step Op.flush = w.flush from rfl, hf] at this
        cases this
      · intro jet w'' _ ha
        have := step_of_zero w (Op.add jet) hz
        rw [show w.step (Op.add jet) = w.add jet from rfl, ha] at this
        cases this
    · obtain ⟨w1, hf, h1, _, _, _, _⟩ := flush_holds w c p hh
      have hfl : w1._offset = w1._ds.rows.length := by
        rw [h1.offset_eq, h1.rows_eq, List.length_map]
      refine ⟨h00.1, h00.2, by rw [h00.1]; exact Nat.zero_le _, ?_, ?_, ?_, fun _ => ⟨w1, hf⟩⟩
      · intro op w' hs
        exact (step_offset_le w w' c p hh op hs).1
      · intro w' hf'
        rw [hf] at hf'
        injection hf' with hf'
        rw [← hf']
        exact hfl
      · intro jet w'' hfull ha
        refine ⟨w1, hf, hfl, ?_, ?_⟩
        · unfold Writer.add at ha
          rw [hfull] at ha
          simp only [if_true, hf] at ha
          injection ha with ha
          rw [← ha]
        · unfold Writer.add at ha
          rw [hfull] at ha
          simp only [if_true, hf] at ha
          injection ha with ha
          rw [← ha]
  · intro T group name b ops w0 h0
    obtain ⟨hh, _, _, ho, _, _, _⟩ := ctor1_holds group name b w0 h0
    obtain ⟨c, hc, _, _⟩ := run1_holds ops w0 [] hh
    refine ⟨ho, by rw [hh.cells_eq]; rfl, by rw [ho]; exact Nat.zero_le _, ?_, ?_, ?_⟩
    · intro op
      obtain ⟨c', hc', hl, _⟩ := step1_holds (w0.run ops) c hc op
      rw [hc.offset_eq, hc'.offset_eq]
      exact hl
    · obtain ⟨h1, _⟩ := flush1_holds (w0.run ops) c hc
      rw [h1.offset_eq, h1.cells_eq, List.length_map]
    · intro jet hfull
      have hadd : (w0.run ops).add jet
          = { (w0.run ops).flush with _buffer := (w0.run ops).flush._buffer ++ [jet] } := by
        unfold Writer1d.add
        simp only [if_pos hfull]
      rw [hadd]
      exact ⟨rfl, rfl⟩

/-- C7 at a concrete input: the state after `sample_ops` on a fresh
`Writer<Track>` with `max_length = 2` and batch size 2, and the state after
`sample_ops1` on a fresh `Writer1d<Track>` with batch size 2. -/
theorem offset_tracks_extent_witness :
    (∃ w0 w w' : Writer Track,
      (Writer.ctor Track ⟨[]⟩ "tracks" 2 2).1 = .ok w0 ∧ w0.run sample_ops = .ok w ∧
      w.flush = .ok w' ∧ w'._offset = w'._ds.rows.length ∧ w'._offset = 3) ∧
    (∃ w0 : Writer1d Track,
      (Writer1d.ctor Track ⟨[]⟩ "tracks" 2).1 = .ok w0 ∧
      (w0.run sample_ops1).flush._offset = (w0.run sample_ops1).flush._ds.cells.length ∧
      (w0.run sample_ops1).flush._offset = 5) := by
  refine ⟨⟨_, _, _, rfl, rfl, rfl, ?_, rfl⟩, ⟨_, rfl, ?_, rfl⟩⟩
  · have h := offset_tracks_extent.1 Track ⟨[]⟩ "tracks" 2 2 sample_ops _ _ rfl
      (show Writer.run _ sample_ops = .ok _ from rfl)
    exact h.2.2.2.2.1 _ rfl
  · exact (offset_tracks_extent.2 Track ⟨[]⟩ "tracks" 2 sample_ops1 _ rfl).2.2.2.2.1

/-! ## C8: the buffered row count after an `add` that did not flush -/

/-- C8 fails as stated: on a fresh writer with `max_length = 3` and batch size 2
(the configuration of Scenario A), neither of two `add` calls finds a full
buffer, so neither flushes, and after the second one `buffer_size()` is 2,
which is not below the batch size. -/
theorem add_without_flush_counterexample :
    ∃ w0 w1 w2 : Writer Track,
      (Writer.ctor Track ⟨[]⟩ "tracks" 3 2).1 = .ok w0 ∧
      w0.buffer_size ≠ .ok w0._batch_size ∧
      w0.add [⟨1, true⟩, ⟨2, true⟩] = .ok w1 ∧
      w1.buffer_size ≠ .ok w1._batch_size ∧
      w1.add [⟨3, true⟩] = .ok w2 ∧
      w2._ds.n_extend = 0 ∧
      w2.buffer_size = .ok 2 ∧ ¬ (2 < w2._batch_size) := by
  refine ⟨_, _, _, rfl, ?_, rfl, ?_, rfl, rfl, rfl, by decide⟩
  · intro h
    cases h
  · intro h
    cases h

/-- C8, amended: in every state that `add` and `flush` calls reach from a
constructed writer with `max_length ≥ 1` (the constructor ensures
`batch_size ≥ 1`), an `add` that finds `buffer_size() ≠ batch_size`, and so does
not flush, returns normally and leaves `buffer_size()` in the range
`1 ≤ buffer_size() ≤ batch_size`; the dataset and `_offset` are untouched. -/
theorem add_without_flush_count (T : Type) [GetEmpty T] (group : CommonFG) (name : String)
    (m b : Nat) (ops : List (Op T)) (w0 w : Writer T) (jet : List T) (hm : 1 ≤ m)
    (h0 : (Writer.ctor T group name m b).1 = .ok w0) (hr : w0.run ops = .ok w)
    (hno : w.buffer_size ≠ .ok w._batch_size) :
    ∃ w' n, w.add jet = .ok w' ∧ w'.buffer_size = .ok n ∧
      1 ≤ n ∧ n ≤ w'._batch_size ∧ w'._batch_size = b ∧ 1 ≤ b ∧
      w'._ds = w._ds ∧ w'._offset = w._offset := by
  obtain ⟨_, hwb, hb, hcase⟩ := reach_cases group name m b ops w0 w h0 hr
  rcases hcase with ⟨hm0, _⟩ | ⟨_, c, p, hh, _⟩
  · omega
  · have hs := buffer_size_of_holds w c p hh
    have hne : p.length ≠ w._batch_size := by
      intro he
      rw [hs, he] at hno
      exact hno rfl
    obtain ⟨w', ha, _, hb', _, hpart⟩ := add_holds w c p hh jet
    obtain ⟨h', hds, hoff⟩ := hpart hne
    have hs' := buffer_size_of_holds w' _ _ h'
    have hle := h'.pending_le
    rw [List.length_append, List.length_singleton] at hs' hle
    exact ⟨w', p.length + 1, ha, hs', Nat.succ_pos _, hle, hb'.trans hwb, hb, hds, hoff⟩

/-- C8, amended, at a concrete input: the second `add` of Scenario A. -/
theorem add_without_flush_count_witness :
    ∃ w0 w w' : Writer Track, ∃ n,
      (Writer.ctor Track ⟨[]⟩ "tracks" 3 2).1 = .ok w0 ∧
      w0.run [Op.add [⟨1, true⟩, ⟨2, true⟩]] = .ok w ∧
      w.add [⟨3, true⟩] = .ok w' ∧ w'.buffer_size = .ok n ∧
      1 ≤ n ∧ n ≤ w'._batch_size := by
  have h := add_without_flush_count Track ⟨[]⟩ "tracks" 3 2 [Op.add [⟨1, true⟩, ⟨2, true⟩]]
    _ _ [⟨3, true⟩] (by decide) rfl
    (show Writer.run _ [Op.add [(⟨1, true⟩ : Track), ⟨2, true⟩]] = .ok _ from rfl)
    (by intro h; cases h)
  obtain ⟨w', n, ha, hs, h1, h2, _⟩ := h
  exact ⟨_, _, w', n, rfl, rfl, ha, hs, h1, h2⟩

/-! ## C9: the buffered row count after an `add` that flushed -/

/-- C9: in every state that `add` and `flush` calls reach from a constructed
writer with `max_length ≥ 1`, an `add` that finds `buffer_size() = batch_size`,
and so flushes first, returns normally and leaves `buffer_size()` equal to 1;
the flush it made was one `extend` and one `write`. -/
theorem add_after_flush_count (T : Type) [GetEmpty T] (group : CommonFG) (name : String)
    (m b : Nat) (ops : List (Op T)) (w0 w : Writer T) (jet : List T) (hm : 1 ≤ m)
    (h0 : (Writer.ctor T group name m b).1 = .ok w0) (hr : w0.run ops = .ok w)
    (hfull : w.buffer_size = .ok w._batch_size) :
    ∃ w', w.add jet = .ok w' ∧ w'.buffer_size = .ok 1 ∧
      w'._ds.n_extend = w._ds.n_extend + 1 ∧ w'._ds.n_write = w._ds.n_write + 1 := by
  obtain ⟨_, _, _, hcase⟩ := reach_cases group name m b ops w0 w h0 hr
  rcases hcase with ⟨hm0, _⟩ | ⟨_, c, p, hh, _⟩
  · omega
  · have hs := buffer_size_of_holds w c p hh
    have he : p.length = w._batch_size := by
      rw [hs] at hfull
      injection hfull
    obtain ⟨w', ha, _, _, hf, _⟩ := add_holds w c p hh jet
    obtain ⟨h', hext, hwr⟩ := hf he
    exact ⟨w', ha, buffer_size_of_holds w' _ _ h', hext, hwr⟩

/-- C9 at a concrete input: a third `add` after the two of Scenario A. -/
theorem add_after_flush_count_witness :
    ∃ w0 w w' : Writer Track,
      (Writer.ctor Track ⟨[]⟩ "tracks" 3 2).1 = .ok w0 ∧
      w0.run [Op.add [⟨1, true⟩, ⟨2, true⟩], Op.add [⟨3, true⟩]] = .ok w ∧
      w.buffer_size = .ok w._batch_size ∧
      w.add [⟨4, false⟩] = .ok w' ∧ w'.buffer_size = .ok 1 := by
  have h := add_after_flush_count Track ⟨[]⟩ "tracks" 3 2
    [Op.add [⟨1, true⟩, ⟨2, true⟩], Op.add [⟨3, true⟩]] _ _ [⟨4, false⟩] (by decide) rfl
    (show Writer.run _ [Op.add [(⟨1, true⟩ : Track), ⟨2, true⟩], Op.add [⟨3, true⟩]] = .ok _
      from rfl)
    rfl
  obtain ⟨w', ha, hs, _⟩ := h
  exact ⟨_, _, w', rfl, rfl, rfl, ha, hs⟩

/-! ## C10: batch size 1 -/

theorem flush1_counts {T : Type} (w : Writer1d T) (h : w._buffer ≠ []) :
    w.flush._ds.n_extend = w._ds.n_extend + 1 ∧ w.flush._ds.n_write = w._ds.n_write + 1 ∧
    w.flush._offset = w._offset + w._buffer.length := by
  rw [flush1_of_ne_nil w h]
  exact ⟨rfl, rfl, rfl⟩

theorem flush1_cells {T : Type} (w : Writer1d T) (c : List T) (h : w.Holds c) :
    w.flush._ds.cells = w._ds.cells ++ w._buffer.map some ∧
    w.flush._offset = w._offset + w._buffer.length := by
  by_cases hb : w._buffer = []
  · rw [flush1_of_nil w hb, hb]
    simp
  · obtain ⟨h1, _⟩ := flush1_holds w c h
    rw [h1.cells_eq, h.cells_eq, List.map_append]
    exact ⟨rfl, (flush1_counts w hb).2.2⟩

/-- A run of a rank-1 writer loses and duplicates nothing: the committed records
followed by the buffered ones are those it found followed by the arguments of
its `add` calls. -/
theorem run1_rows {T : Type} (ops : List (Op1 T)) (w : Writer1d T) (c : List T)
    (h : w.Holds c) :
    ∃ c', (w.run ops).Holds c' ∧ (w.run ops)._batch_size = w._batch_size ∧
      c' ++ (w.run ops)._buffer = c ++ w._buffer ++ Op1.adds ops := by
  induction ops generalizing w c with
  | nil => exact ⟨c, h, rfl, by simp [Writer1d.run, Op1.adds]⟩
  | cons op ops ih =>
    have hrun : w.run (op :: ops) = (w.step op).run ops := rfl
    rw [hrun]
    cases op with
    | add jet =>
      obtain ⟨hb, hfull, hpart⟩ := add1_holds w c h jet
      by_cases hf : w._buffer.length = w._batch_size
      · obtain ⟨h1, hbuf⟩ := hfull hf
        obtain ⟨c2, h2, hb2, hrows⟩ := ih (w.add jet) _ h1
        refine ⟨c2, h2, hb2.trans hb, ?_⟩
        rw [show w.step (Op1.add jet) = w.add jet from rfl, hrows, hbuf]
        simp [Op1.adds]
      · obtain ⟨h1, hbuf, _, _⟩ := hpart hf
        obtain ⟨c2, h2, hb2, hrows⟩ := ih (w.add jet) _ h1
        refine ⟨c2, h2, hb2.trans hb, ?_⟩
        rw [show w.step (Op1.add jet) = w.add jet from rfl, hrows, hbuf]
        simp [Op1.adds]
    | flush =>
      obtain ⟨h1, hb⟩ := flush1_holds w c h
      obtain ⟨c2, h2, hb2, hrows⟩ := ih w.flush _ h1
      refine ⟨c2, h2, hb2.trans hb, ?_⟩
      rw [show w.step Op1.flush = w.flush from rfl, hrows, flush1_buffer]
      simp [Op1.adds]

theorem run1_append {T : Type} (ops1 ops2 : List (Op1 T)) (w : Writer1d T) :
    w.run (ops1 ++ ops2) = (w.run ops1).run ops2 := by
  unfold Writer1d.run
  rw [List.foldl_append]

/-! ## C11: when `add` flushes -/

/-- C11: in every state that `add` and `flush` calls reach from a constructed
writer, for both writers: an `add` that finds `buffer_size() = batch_size`
performs the flush (one `extend`, one `write`; its dataset and `_offset` are
those the flush leaves) and its buffer is then the new row alone; an `add` that
finds any other count leaves the dataset and `_offset` as they were and appends
the new row to the buffer.  So the `extend` and `write` counts go up in `add`
exactly when the buffer was full, and `_offset` changes only through `flush`.
The rank-2 `add` returns normally when `max_length ≥ 1`. -/
theorem auto_flush_timing :
    (∀ (T : Type) [GetEmpty T] (group : CommonFG) (name : String) (m b : Nat)
        (ops : List (Op T)) (w0 w w' : Writer T) (jet : List T),
      (Writer.ctor T group name m b).1 = .ok w0 → w0.run ops = .ok w →
      w.add jet = .ok w' →
      (w.buffer_size = .ok w._batch_size →
        ∃ wf, w.flush = .ok wf ∧
          wf._ds.n_extend = w._ds.n_extend + 1 ∧ wf._ds.n_write = w._ds.n_write + 1 ∧
          w'._ds = wf._ds ∧ w'._offset = wf._offset ∧
          w'._buffer = resize jet m get_empty) ∧
      (w.buffer_size ≠ .ok w._batch_size →
        w'._ds = w._ds ∧ w'._offset = w._offset ∧
        w'._buffer = w._buffer ++ resize jet m get_empty) ∧
      ((w'._ds.n_extend = w._ds.n_extend + 1 ∧ w'._ds.n_write = w._ds.n_write + 1) ↔
        w.buffer_size = .ok w._batch_size)) ∧
    (∀ (T : Type) [GetEmpty T] (group : CommonFG) (name : String) (m b : Nat)
        (ops : List (Op T)) (w0 w : Writer T) (jet : List T),
      1 ≤ m → (Writer.ctor T group name m b).1 = .ok w0 → w0.run ops = .ok w →
      ∃ w', w.add jet = .ok w') ∧
    (∀ (T : Type) (group : CommonFG) (name : String) (b : Nat)
        (ops : List (Op1 T)) (w0 : Writer1d T) (jet : T),
      (Writer1d.ctor T group name b).1 = .ok w0 →
      ((w0.run ops).buffer_size = (w0.run ops)._batch_size →
        (w0.run ops).flush._ds.n_extend = (w0.run ops)._ds.n_extend + 1 ∧
        (w0.run ops).flush._ds.n_write = (w0.run ops)._ds.n_write + 1 ∧
        ((w0.run ops).add jet)._ds = (w0.run ops).flush._ds ∧
        ((w0.run ops).add jet)._offset = (w0.run ops).flush._offset ∧
        ((w0.run ops).add jet)._buffer = [jet]) ∧
      ((w0.run ops).buffer_size ≠ (w0.run ops)._batch_size →
        ((w0.run ops).add jet)._ds = (w0.run ops)._ds ∧
        ((w0.run ops).add jet)._offset = (w0.run ops)._offset ∧
        ((w0.run ops).add jet)._buffer = (w0.run ops)._buffer ++ [jet]) ∧
      ((((w0.run ops).add jet)._ds.n_extend = (w0.run ops)._ds.n_extend + 1 ∧
        ((w0.run ops).add jet)._ds.n_write = (w0.run ops)._ds.n_write + 1) ↔
        (w0.run ops).buffer_size = (w0.run ops)._batch_size)) := by
  refine ⟨?_, ?_, ?_⟩
  · intro T _ group name m b ops w0 w w' jet h0 hr ha
    obtain ⟨hwm, _, _, hcase⟩ := reach_cases group name m b ops w0 w h0 hr
    rcases hcase with ⟨hm0, _⟩ | ⟨_, c, p, hh, _⟩
    · have := step_of_zero w (Op.add jet) (hwm.trans hm0)
      rw [show w.step (Op.add jet) = w.add jet from rfl, ha] at this
      cases this
    · have hs := buffer_size_of_holds w c p hh
      obtain ⟨w1, ha1, _, _, hfull, hpart⟩ := add_holds w c p hh jet
      rw [ha] at ha1
      injection ha1 with ha1
      subst ha1
      obtain ⟨wf, hf, hhf, _, _, _, hcount⟩ := flush_holds w c p hh
      by_cases hfl : p.length = w._batch_size
      · have hfull' : w.buffer_size = .ok w._batch_size := by rw [hs, hfl]
        have hp : p ≠ [] := by
          intro he
          have := hh.batch_size_pos
          rw [he] at hfl
          simp at hfl
          omega
        obtain ⟨h1, he1, hw1⟩ := hfull hfl
        have hadd : w.add jet
            = .ok { wf with _buffer := wf._buffer ++ resize jet wf._max_length get_empty } := by
          unfold Writer.add
          rw [hfull']
          simp only [if_true, hf]
        rw [ha] at hadd
        injection hadd with hadd
        refine ⟨fun _ => ⟨wf, hf, (hcount hp).1, (hcount hp).2, by rw [hadd], by rw [hadd], ?_⟩,
          fun hne => absurd hfull' hne, ⟨fun _ => hfull', fun _ => ⟨he1, hw1⟩⟩⟩
        rw [h1.buffer_eq, hwm]
        simp
      · have hne : w.buffer_size ≠ .ok w._batch_size := by
          rw [hs]
          intro he
          injection he with he
          exact hfl he
        obtain ⟨h1, hds, hoff⟩ := hpart hfl
        refine ⟨fun he => absurd he hne, fun _ => ⟨hds, hoff, ?_⟩, ⟨?_, fun he => absurd he hne⟩⟩
        · rw [h1.buffer_eq, hh.buffer_eq, hwm]
          simp
        · intro hc
          rw [hds] at hc
          omega
  · intro T _ group name m b ops w0 w jet hm h0 hr
    obtain ⟨_, _, _, hcase⟩ := reach_cases group name m b ops w0 w h0 hr
    rcases hcase with ⟨hm0, _⟩ | ⟨_, c, p, hh, _⟩
    · omega
    · obtain ⟨w', ha, _⟩ := add_holds w c p hh jet
      exact ⟨w', ha⟩
  · intro T group name b ops w0 jet h0
    obtain ⟨hh, _, _, _, _, _, _⟩ := ctor1_holds group name b w0 h0
    obtain ⟨c, hc, _, _⟩ := run1_holds ops w0 [] hh
    obtain ⟨_, hfull, hpart⟩ := add1_holds (w0.run ops) c hc jet
    by_cases hfl : (w0.run ops)._buffer.length = (w0.run ops)._batch_size
    · have hne : (w0.run ops)._buffer ≠ [] := by
        intro he
        have := hc.batch_size_pos
        rw [he] at hfl
        simp at hfl
        omega
      have hadd : (w0.run ops).add jet
          = { (w0.run ops).flush with _buffer := (w0.run ops).flush._buffer ++ [jet] } := by
        unfold Writer1d.add Writer1d.buffer_size
        simp only [if_pos hfl]
      obtain ⟨he, hw, _⟩ := flush1_counts (w0.run ops) hne
      refine ⟨fun _ => ⟨he, hw, by rw [hadd], by rw [hadd], (hfull hfl).2⟩,
        fun hn => absurd hfl hn, ⟨fun _ => hfl, fun _ => ?_⟩⟩
      rw [hadd]
      exact ⟨he, hw⟩
    · obtain ⟨_, hbuf, hds, hoff⟩ := hpart hfl
      refine ⟨fun he => absurd he hfl, fun _ => ⟨hds, hoff, hbuf⟩, ⟨?_, fun he => absurd he hfl⟩⟩
      intro hcnt
      rw [hds] at hcnt
      omega

/-- C11 at a concrete input: on a `Writer<Track>` with `max_length = 3` and batch
size 2, the second `add` leaves the dataset alone and the third one flushes. -/
theorem auto_flush_timing_witness :
    ∃ w0 w2 w3 : Writer Track,
      (Writer.ctor Track ⟨[]⟩ "tracks" 3 2).1 = .ok w0 ∧
      w0.run [Op.add [⟨1, true⟩, ⟨2, true⟩], Op.add [⟨3, true⟩]] = .ok w2 ∧
      w2.add [⟨4, false⟩] = .ok w3 ∧
      w2.buffer_size = .ok w2._batch_size ∧
      w3._ds.n_extend = w2._ds.n_extend + 1 ∧ w3._ds.n_write = w2._ds.n_write + 1 := by
  have h := auto_flush_timing.1 Track ⟨[]⟩ "tracks" 3 2
    [Op.add [⟨1, true⟩, ⟨2, true⟩], Op.add [⟨3, true⟩]] _ _ _ [⟨4, false⟩] rfl
    (show Writer.run _ [Op.add [(⟨1, true⟩ : Track), ⟨2, true⟩], Op.add [⟨3, true⟩]] = .ok _
      from rfl)
    (show Writer.add _ [(⟨4, false⟩ : Track)] = .ok _ from rfl)
  have h3 := h.2.2.2 rfl
  exact ⟨_, _, _, rfl, rfl, rfl, rfl, h3.1, h3.2⟩

/-! ## C13: what the rank-1 writer stores -/

/-- C13: for a rank-1 writer with `batch_size ≥ 1`, after any list of `add`
calls with `flush` calls placed anywhere between them and a final `flush`, the
dataset has exactly one cell per `add`, cell `i` holds the record of the `i`-th
`add` unmodified, and nothing is left in the buffer.  Every `flush` on the way
(in any reachable state) finds `_offset` equal to the extent and writes the
buffered records as one contiguous run starting there: the cells it leaves are
the cells it found followed by the buffer. -/
theorem writer1d_contents (T : Type) (group : CommonFG) (name : String) (b : Nat)
    (ops : List (Op1 T)) (hb : 1 ≤ b) :
    ∃ w0, (Writer1d.ctor T group name b).1 = .ok w0 ∧
      (w0.run (ops ++ [Op1.flush]))._ds.cells.length = (Op1.adds ops).length ∧
      (w0.run (ops ++ [Op1.flush]))._ds.cells = (Op1.adds ops).map some ∧
      (∀ i, i < (Op1.adds ops).length →
        (w0.run (ops ++ [Op1.flush]))._ds.cells[i]? = ((Op1.adds ops)[i]?).map some) ∧
      (w0.run (ops ++ [Op1.flush]))._buffer = [] ∧
      (w0.run ops)._ds.cells.length = (w0.run ops)._offset ∧
      (w0.run ops).flush._ds.cells
        = (w0.run ops)._ds.cells ++ (w0.run ops)._buffer.map some ∧
      (w0.run ops).flush._offset = (w0.run ops)._offset + (w0.run ops)._buffer.length := by
  have hc := ctor1_ok T group name b hb
  obtain ⟨hh, _⟩ := ctor1_holds group name b _ (by rw [hc])
  obtain ⟨c, hhc, _, hrows⟩ := run1_rows ops _ [] hh
  obtain ⟨h1, _⟩ := flush1_holds _ c hhc
  obtain ⟨hcells, hoff⟩ := flush1_cells _ c hhc
  have hfin : ∀ w : Writer1d T, w.run (ops ++ [Op1.flush]) = (w.run ops).flush := by
    intro w
    rw [run1_append]
    rfl
  simp only [List.append_nil, List.nil_append] at hrows
  refine ⟨_, by rw [hc], ?_, ?_, ?_, ?_, ?_, hcells, hoff⟩
  · rw [hfin, h1.cells_eq, hrows, List.length_map]
  · rw [hfin, h1.cells_eq, hrows]
  · intro i _
    rw [hfin, h1.cells_eq, hrows, List.getElem?_map]
  · rw [hfin, flush1_buffer]
  · rw [hhc.cells_eq, hhc.offset_eq, List.length_map]

/-- C13 at a concrete input: `sample_ops1` on a `Writer1d<Track>` with batch
size 2. -/
theorem writer1d_contents_witness :
    ∃ w0 : Writer1d Track, (Writer1d.ctor Track ⟨[]⟩ "tracks" 2).1 = .ok w0 ∧
      (w0.run (sample_ops1 ++ [Op1.flush]))._ds.cells.length = (Op1.adds sample_ops1).length ∧
      (w0.run (sample_ops1 ++ [Op1.flush]))._ds.cells = (Op1.adds sample_ops1).map some ∧
      (∀ i, i < (Op1.adds sample_ops1).length →
        (w0.run (sample_ops1 ++ [Op1.flush]))._ds.cells[i]?
          = ((Op1.adds sample_ops1)[i]?).map some) ∧
      (w0.run (sample_ops1 ++ [Op1.flush]))._buffer = [] ∧
      (w0.run sample_ops1)._ds.cells.length = (w0.run sample_ops1)._offset ∧
      (w0.run sample_ops1).flush._ds.cells
        = (w0.run sample_ops1)._ds.cells ++ (w0.run sample_ops1)._buffer.map some ∧
      (w0.run sample_ops1).flush._offset
        = (w0.run sample_ops1)._offset + (w0.run sample_ops1)._buffer.length :=
  writer1d_contents Track ⟨[]⟩ "tracks" 2 sample_ops1 (by decide)

/-! ## C17: nothing is lost, nothing is duplicated -/

/-- C17: for a rank-2 writer constructed with `max_length = m ≥ 1` (and so
`batch_size ≥ 1`), every list of `add` and `flush` calls returns normally, and
in the state it reaches the rows of the dataset (there are `_offset` of them)
followed by the rows in the buffer are, in order, the arguments of the `add`
calls so far, each resized to `m` entries with the sentinel; so `_offset` plus
`buffer_size()` is the number of `add` calls. -/
theorem no_loss_no_duplication (T : Type) [GetEmpty T] (group : CommonFG) (name : String)
    (m b : Nat) (ops : List (Op T)) (w0 : Writer T) (hm : 1 ≤ m)
    (h0 : (Writer.ctor T group name m b).1 = .ok w0) :
    ∃ w n, w0.run ops = .ok w ∧ w.buffer_size = .ok n ∧
      w._ds.rows.length = w._offset ∧
      w._ds.rows ++ (slab_rows w._buffer m n).map (List.map some)
        = (Op.adds ops).map (fun jet => (resize jet m get_empty).map some) ∧
      w._offset + n = (Op.adds ops).length := by
  obtain ⟨hh, hwm, _⟩ := ctor_holds group name m b hm w0 h0
  obtain ⟨w, c, p, hr, h, hm', _, hrows, _⟩ := run_holds ops w0 [] [] hh
  simp only [List.append_nil, List.nil_append] at hrows
  have hmw : w._max_length = m := hm'.trans hwm
  refine ⟨w, p.length, hr, buffer_size_of_holds w c p h, ?_, ?_, ?_⟩
  · rw [h.rows_eq, h.offset_eq, List.length_map]
  · have hp := slab_rows_flatten w._max_length p h.pending_width
    rw [hmw] at hp
    rw [h.rows_eq, h.buffer_eq, hp, ← List.map_append, hrows, hwm, List.map_map]
    rfl
  · rw [h.offset_eq, ← List.length_append, hrows, List.length_map]

/-- C17 at a concrete input: `sample_ops` on a `Writer<Track>` with
`max_length = 2` and batch size 2. -/
theorem no_loss_no_duplication_witness :
    ∃ (w0 w : Writer Track) (n : Nat),
      (Writer.ctor Track ⟨[]⟩ "tracks" 2 2).1 = .ok w0 ∧
      w0.run sample_ops = .ok w ∧ w.buffer_size = .ok n ∧
      w._ds.rows.length = w._offset ∧
      w._ds.rows ++ (slab_rows w._buffer 2 n).map (List.map some)
        = (Op.adds sample_ops).map (fun jet => (resize jet 2 get_empty).map some) ∧
      w._offset + n = (Op.adds sample_ops).length := by
  obtain ⟨w, n, h⟩ :=
    no_loss_no_duplication Track ⟨[]⟩ "tracks" 2 2 sample_ops _ (by decide) rfl
  exact ⟨_, w, n, rfl, h⟩

/-! ## C18: the buffer never holds more than one batch -/

/-- C18: for both writers, in every state that `add` and `flush` calls reach
from a constructed writer (rank-2: `max_length ≥ 1`), the number of buffered
rows is at most `batch_size`; a `flush` in such a state, whether called by the
client or from inside `add`, extends the dataset by exactly the buffered rows,
so by at most `batch_size` rows. -/
theorem capacity_bound :
    (∀ (T : Type) [GetEmpty T] (group : CommonFG) (name : String) (m b : Nat)
        (ops : List (Op T)) (w0 : Writer T),
      1 ≤ m → (Writer.ctor T group name m b).1 = .ok w0 →
      ∃ w n wf, w0.run ops = .ok w ∧ w._batch_size = b ∧ 1 ≤ b ∧
        w.buffer_size = .ok n ∧ n ≤ b ∧
        w.flush = .ok wf ∧ wf._ds.rows.length = w._ds.rows.length + n ∧
        wf._offset = w._offset + n) ∧
    (∀ (T : Type) (group : CommonFG) (name : String) (b : Nat)
        (ops : List (Op1 T)) (w0 : Writer1d T),
      (Writer1d.ctor T group name b).1 = .ok w0 →
      (w0.run ops)._batch_size = b ∧ 1 ≤ b ∧
      (w0.run ops).buffer_size ≤ b ∧
      (w0.run ops).flush._ds.cells.length
        = (w0.run ops)._ds.cells.length + (w0.run ops).buffer_size ∧
      (w0.run ops).flush._offset = (w0.run ops)._offset + (w0.run ops).buffer_size) := by
  constructor
  · intro T _ group name m b ops w0 hm h0
    obtain ⟨hh, _, hwb, _⟩ := ctor_holds group name m b hm w0 h0
    obtain ⟨w, c, p, hr, h, _, hb', _, _⟩ := run_holds ops w0 [] [] hh
    obtain ⟨wf, hf, hf', _⟩ := flush_holds w c p h
    have hbb : w._batch_size = b := hb'.trans hwb
    refine ⟨w, p.length, wf, hr, hbb, ?_, buffer_size_of_holds w c p h, ?_, hf, ?_, ?_⟩
    · rw [← hbb]; exact h.batch_size_pos
    · rw [← hbb]; exact h.pending_le
    · rw [hf'.rows_eq, h.rows_eq, List.length_map, List.length_map, List.length_append]
    · rw [hf'.offset_eq, h.offset_eq, List.length_append]
  · intro T group name b ops w0 h0
    obtain ⟨hh, hwb, hb, _⟩ := ctor1_holds group name b w0 h0
    obtain ⟨c, hc, _, hb'⟩ := run1_holds ops w0 [] hh
    obtain ⟨hcells, hoff⟩ := flush1_cells _ c hc
    have hbb : (w0.run ops)._batch_size = b := hb'.trans hwb
    refine ⟨hbb, hb, ?_, ?_, hoff⟩
    · rw [← hbb]; exact hc.buffer_le
    · rw [hcells, List.length_append, List.length_map]
      rfl

/-- C18 at a concrete input: the states after `sample_ops` (batch size 2) and
after `sample_ops1` (batch size 2). -/
theorem capacity_bound_witness :
    (∃ (w0 w wf : Writer Track) (n : Nat),
      (Writer.ctor Track ⟨[]⟩ "tracks" 2 2).1 = .ok w0 ∧
      w0.run sample_ops = .ok w ∧
      w.buffer_size = .ok n ∧ n ≤ 2 ∧ w.flush = .ok wf ∧
      wf._ds.rows.length = w._ds.rows.length + n) ∧
    (∃ w0 : Writer1d Track, (Writer1d.ctor Track ⟨[]⟩ "tracks" 2).1 = .ok w0 ∧
      (w0.run sample_ops1).buffer_size ≤ 2) := by
  obtain ⟨w, n, wf, hr, _, _, hs, hn, hf, hrows, _⟩ :=
    capacity_bound.1 Track ⟨[]⟩ "tracks" 2 2 sample_ops _ (by decide) rfl
  exact ⟨⟨_, w, wf, n, rfl, hr, hs, hn, hf, hrows⟩,
    ⟨_, rfl, (capacity_bound.2 Track ⟨[]⟩ "tracks" 2 sample_ops1 _ rfl).2.2.1⟩⟩

/-! ## Lemmas on the simulation -/

theorem resize_map {α β : Type} (f : α → β) (v : List α) (n : Nat) (x : α) :
    resize (v.map f) n (f x) = (resize v n x).map f := by
  simp [resize]

theorem flatten_map_singleton {α : Type} (buf : List α) :
    (buf.map (fun r => [r])).flatten = buf := by
  induction buf with
  | nil => rfl
  | cons a buf ih =>
    rw [List.map_cons, List.flatten_cons, ih]
    rfl

theorem slab_rows_one {α : Type} (buf : List α) :
    slab_rows buf 1 buf.length = buf.map (fun r => [r]) := by
  have h := slab_rows_flatten 1 (buf.map (fun r => [r])) (by
    intro r hr
    rw [List.mem_map] at hr
    obtain ⟨a, _, rfl⟩ := hr
    rfl)
  rw [flatten_map_singleton, List.length_map] at h
  exact h

theorem flush_simulates {T : Type} (w1 : Writer1d T) (w2 : Writer T) (h : Simulates w1 w2) :
    ∃ w2', w2.flush = .ok w2' ∧ Simulates w1.flush w2' := by
  obtain ⟨hm, hb, ho, hbuf, he, hw, hrows⟩ := h
  have hm1 : 1 ≤ w2._max_length := by omega
  by_cases hnil : w1._buffer = []
  · refine ⟨w2, flush_of_no_rows w2 hm1 (by rw [hbuf, hnil]), ?_⟩
    rw [flush1_of_nil w1 hnil]
    exact ⟨hm, hb, ho, hbuf, he, hw, hrows⟩
  · have hlen : w2._buffer.length = w2._buffer.length * w2._max_length := by
      rw [hm, Nat.mul_one]
    have hpos : 1 ≤ w2._buffer.length := by
      rw [hbuf]
      exact List.length_pos.mpr hnil
    obtain ⟨w2', hf, hr', ho', hb', hm', hbs', he', hw', _⟩ :=
      flush_spec w2 w2._buffer.length hm1 hpos hlen
    obtain ⟨h1e, h1w, h1o⟩ := flush1_counts w1 hnil
    refine ⟨w2', hf, hm'.trans hm, hbs'.trans (by rw [hb, flush1_of_ne_nil w1 hnil]), ?_, ?_,
      ?_, ?_, ?_⟩
    · rw [ho', h1o, ho, hbuf]
    · rw [hb', flush1_buffer]
    · rw [he', h1e, he]
    · rw [hw', h1w, hw]
    · have hw1 : ∀ r ∈ w2._ds.rows, r.length = 1 := by
        intro r hr
        rw [hrows, List.mem_map] at hr
        obtain ⟨a, _, rfl⟩ := hr
        rfl
      have hcells : w1.flush._ds.cells = resize w1._ds.cells w1._offset none
          ++ w1._buffer.map some := by
        rw [flush1_of_ne_nil w1 hnil]
        exact extend_write_cells w1._ds w1._buffer w1._offset
      rw [hr', hcells, hm, map_resize_of_width 1 none w2._ds.rows hw1, slab_rows_one, hrows, ho,
        hbuf, List.map_append, ← resize_map]
      simp

theorem add_simulates {T : Type} [GetEmpty T] (w1 : Writer1d T) (w2 : Writer T)
    (h : Simulates w1 w2) (jet : T) :
    ∃ w2', w2.add [jet] = .ok w2' ∧ Simulates (w1.add jet) w2' := by
  have hm : w2._max_length = 1 := h.1
  have hb : w2._batch_size = w1._batch_size := h.2.1
  have hbuf : w2._buffer = w1._buffer := h.2.2.2.1
  have hs : w2.buffer_size = .ok w2._buffer.length :=
    buffer_size_of_rows w2 _ (by omega) (by rw [hm, Nat.mul_one])
  have hres : ∀ k : Nat, k = 1 → resize [jet] k get_empty = [jet] := by
    intro k hk
    subst hk
    rfl
  by_cases hfull : w1._buffer.length = w1._batch_size
  · obtain ⟨w2f, hf, hsim⟩ := flush_simulates w1 w2 h
    obtain ⟨hm', hb', ho', hbuf', he', hw', hrows'⟩ := hsim
    have hadd1 : w1.add jet = { w1.flush with _buffer := w1.flush._buffer ++ [jet] } := by
      unfold Writer1d.add Writer1d.buffer_size
      simp only [if_pos hfull]
    refine ⟨{ w2f with _buffer := w2f._buffer ++ resize [jet] w2f._max_length get_empty }, ?_, ?_⟩
    · unfold Writer.add
      rw [hs]
      have hfull2 : w2._buffer.length = w2._batch_size := by rw [hbuf, hb, hfull]
      simp only [if_pos hfull2, hf]
    · rw [hadd1]
      refine ⟨hm', hb', ho', ?_, he', hw', hrows'⟩
      show w2f._buffer ++ resize [jet] w2f._max_length get_empty = w1.flush._buffer ++ [jet]
      rw [hres _ hm', hbuf']
  · have hadd1 : w1.add jet = { w1 with _buffer := w1._buffer ++ [jet] } := by
      unfold Writer1d.add Writer1d.buffer_size
      simp only [if_neg hfull]
    obtain ⟨_, _, ho, _, he, hw, hrows⟩ := h
    refine ⟨{ w2 with _buffer := w2._buffer ++ resize [jet] w2._max_length get_empty }, ?_, ?_⟩
    · unfold Writer.add
      rw [hs]
      have hfull2 : ¬ w2._buffer.length = w2._batch_size := by rw [hbuf, hb]; exact hfull
      simp only [if_neg hfull2]
    · rw [hadd1]
      refine ⟨hm, hb, ho, ?_, he, hw, hrows⟩
      show w2._buffer ++ resize [jet] w2._max_length get_empty = w1._buffer ++ [jet]
      rw [hres _ hm, hbuf]

theorem step_simulates {T : Type} [GetEmpty T] (w1 : Writer1d T) (w2 : Writer T)
    (h : Simulates w1 w2) (op : Op1 T) :
    ∃ w2', w2.step op.lift = .ok w2' ∧ Simulates (w1.step op) w2' := by
  cases op with
  | add jet => exact add_simulates w1 w2 h jet
  | flush => exact flush_simulates w1 w2 h

theorem run_simulates {T : Type} [GetEmpty T] (ops : List (Op1 T)) (w1 : Writer1d T)
    (w2 : Writer T) (h : Simulates w1 w2) :
    ∃ w2', w2.run (ops.map Op1.lift) = .ok w2' ∧ Simulates (w1.run ops) w2' := by
  induction ops generalizing w1 w2 with
  | nil => exact ⟨w2, rfl, h⟩
  | cons op ops ih =>
    obtain ⟨w2a, hs, ha⟩ := step_simulates w1 w2 h op
    obtain ⟨w2b, hr, hb⟩ := ih (w1.step op) w2a ha
    refine ⟨w2b, ?_, hb⟩
    simp only [List.map_cons, Writer.run, hs, hr]

/-! ## C12: the rank-1 writer against the rank-2 writer with `max_length = 1` -/

/-- C12: for every `batch_size ≥ 1`, a `Writer1d<T>` and a `Writer<T>`
constructed with `max_length = 1` are in simulation when the first is driven by
`add(r)` / `flush()` and the second by `add([r])` / `flush()`: the two fresh
writers are related by `Simulates`; every step from related states returns
normally on the rank-2 side and leads to related states; so after every prefix
of every call sequence (after each step) both have the same offset, the same
buffered records, the same counts of `extend` and `write` calls, and the same
committed records, each rank-2 row being the one-element row of the rank-1
cell. -/
theorem writer1d_simulation (T : Type) [GetEmpty T] (group : CommonFG) (name : String)
    (b : Nat) (ops : List (Op1 T)) (hb : 1 ≤ b) :
    ∃ w1 w2, (Writer1d.ctor T group name b).1 = .ok w1 ∧
      (Writer.ctor T group name 1 b).1 = .ok w2 ∧
      Simulates w1 w2 ∧
      (∀ (v1 : Writer1d T) (v2 : Writer T) (op : Op1 T), Simulates v1 v2 →
        ∃ v2', v2.step op.lift = .ok v2' ∧ Simulates (v1.step op) v2') ∧
      (∀ k, ∃ w2', w2.run ((ops.take k).map Op1.lift) = .ok w2' ∧
        Simulates (w1.run (ops.take k)) w2' ∧
        w2'._offset = (w1.run (ops.take k))._offset ∧
        w2'._buffer = (w1.run (ops.take k))._buffer ∧
        w2'._ds.n_extend = (w1.run (ops.take k))._ds.n_extend ∧
        w2'._ds.n_write = (w1.run (ops.take k))._ds.n_write ∧
        w2'._ds.rows = (w1.run (ops.take k))._ds.cells.map (fun c => [c])) := by
  have h1 := ctor1_ok T group name b hb
  have h2 := ctor_ok T group name 1 b hb (Nat.le_refl 1)
  have hsim : Simulates
      ({ _batch_size := b, _offset := 0, _buffer := [],
         _ds := { cells := [], n_extend := 0, n_write := 0, closed := false } } : Writer1d T)
      ({ _max_length := 1, _batch_size := b, _offset := 0, _buffer := [],
         _ds := { width := 1, rows := [], n_extend := 0, n_write := 0, closed := false } }
        : Writer T) :=
    ⟨rfl, rfl, rfl, rfl, rfl, rfl, rfl⟩
  refine ⟨_, _, by rw [h1], by rw [h2], hsim,
    fun v1 v2 op h => step_simulates v1 v2 h op, ?_⟩
  intro k
  obtain ⟨w2', hr, hs⟩ := run_simulates (ops.take k) _ _ hsim
  exact ⟨w2', hr, hs, hs.2.2.1, hs.2.2.2.1, hs.2.2.2.2.1, hs.2.2.2.2.2.1, hs.2.2.2.2.2.2⟩

/-- C12 at a concrete input: `sample_ops1` with batch size 2. -/
theorem writer1d_simulation_witness :
    ∃ (w1 : Writer1d Track) (w2 w2' : Writer Track),
      (Writer1d.ctor Track ⟨[]⟩ "tracks" 2).1 = .ok w1 ∧
      (Writer.ctor Track ⟨[]⟩ "tracks" 1 2).1 = .ok w2 ∧
      w2.run ((sample_ops1.take 6).map Op1.lift) = .ok w2' ∧
      Simulates (w1.run (sample_ops1.take 6)) w2' := by
  obtain ⟨w1, w2, h1, h2, _, _, hk⟩ :=
    writer1d_simulation Track ⟨[]⟩ "tracks" 2 sample_ops1 (by decide)
  obtain ⟨w2', hr, hs, _⟩ := hk 6
  exact ⟨w1, w2, w2', h1, h2, hr, hs⟩

/-! ## Lemmas on packing -/

theorem pack_members_length (next : Nat) (ms : List (String × Nat × DataType)) :
    (pack_members next ms).length = ms.length := by
  induction ms generalizing next with
  | nil => rfl
  | cons m ms ih =>
    obtain ⟨nm, off, ty⟩ := m
    simp only [pack_members, List.length_cons, ih]

theorem pack_members_names (next : Nat) (ms : List (String × Nat × DataType)) :
    (pack_members next ms).map (fun m => m.1) = ms.map (fun m => m.1) := by
  induction ms generalizing next with
  | nil => rfl
  | cons m ms ih =>
    obtain ⟨nm, off, ty⟩ := m
    simp only [pack_members, List.map_cons, ih]

theorem pack_members_types (next : Nat) (ms : List (String × Nat × DataType)) :
    (pack_members next ms).map (fun m => m.2.2) = ms.map (fun m => m.2.2) := by
  induction ms generalizing next with
  | nil => rfl
  | cons m ms ih =>
    obtain ⟨nm, off, ty⟩ := m
    simp only [pack_members, List.map_cons, ih]

theorem pack_members_offset (next : Nat) (ms : List (String × Nat × DataType)) (i : Nat) :
    ((pack_members next ms)[i]?).map (fun m => m.2.1)
      = if i < ms.length then
          some (next + ((ms.take i).map (fun m => m.2.2.getSize)).sum)
        else none := by
  induction ms generalizing next i with
  | nil => simp [pack_members]
  | cons m ms ih =>
    obtain ⟨nm, off, ty⟩ := m
    cases i with
    | zero => simp [pack_members]
    | succ i =>
      simp only [pack_members, List.getElem?_cons_succ, ih, List.length_cons,
        Nat.add_lt_add_iff_right, List.take_succ_cons, List.map_cons, List.sum_cons,
        Nat.add_assoc]

theorem pack_end_eq (next : Nat) (ms : List (String × Nat × DataType)) :
    pack_end next ms = next + (ms.map (fun m => m.2.2.getSize)).sum := by
  induction ms generalizing next with
  | nil => simp [pack_end]
  | cons m ms ih =>
    obtain ⟨nm, off, ty⟩ := m
    simp only [pack_end, ih, List.map_cons, List.sum_cons, Nat.add_assoc]

theorem pack_members_idem (next k : Nat) (ms : List (String × Nat × DataType)) :
    pack_members next (pack_members k ms) = pack_members next ms := by
  induction ms generalizing next k with
  | nil => rfl
  | cons m ms ih =>
    obtain ⟨nm, off, ty⟩ := m
    simp only [pack_members, ih]

theorem pack_end_idem (next k : Nat) (ms : List (String × Nat × DataType)) :
    pack_end next (pack_members k ms) = pack_end next ms := by
  induction ms generalizing next k with
  | nil => rfl
  | cons m ms ih =>
    obtain ⟨nm, off, ty⟩ := m
    simp only [pack_members, pack_end, ih]

/-! ## C15: the packed layout -/

/-- C15: for every compound layout descriptor, whatever its total size and the
offsets of its members, `packed` gives a compound descriptor with as many
members, with the same names and the same member datatypes in the same order;
the offset of member `i` is the sum of the sizes of the members before it, and
the total size is the sum of the sizes of all members; packing a packed
descriptor changes nothing.  For `get_type<Track>()` the packed descriptor has
`pt` at offset 0 and `mask` right after it. -/
theorem packed_contiguous :
    (∀ (size : Nat) (members : List (String × Nat × DataType)),
      ∃ members', packed (.compound size members)
          = .compound ((members.map (fun m => m.2.2.getSize)).sum) members' ∧
        members'.length = members.length ∧
        members'.map (fun m => m.1) = members.map (fun m => m.1) ∧
        members'.map (fun m => m.2.2) = members.map (fun m => m.2.2) ∧
        (∀ i, i < members.length →
          (members'[i]?).map (fun m => m.2.1)
            = some (((members.take i).map (fun m => m.2.2.getSize)).sum))) ∧
    (∀ d : DataType, packed (packed d) = packed d) ∧
    (∀ layout : TrackLayout,
      packed (get_type_Track layout)
        = .compound (layout.get_type_pt.getSize + layout.get_type_mask.getSize)
            [("pt", 0, layout.get_type_pt),
             ("mask", layout.get_type_pt.getSize, layout.get_type_mask)]) := by
  refine ⟨?_, ?_, ?_⟩
  · intro size members
    refine ⟨pack_members 0 members, ?_, pack_members_length 0 members,
      pack_members_names 0 members, pack_members_types 0 members, ?_⟩
    · show DataType.compound (pack_end 0 members) _ = _
      rw [pack_end_eq, Nat.zero_add]
    · intro i hi
      rw [pack_members_offset, if_pos hi, Nat.zero_add]
  · intro d
    cases d with
    | atomic name size => rfl
    | compound size members =>
      show DataType.compound (pack_end 0 (pack_members 0 members))
        (pack_members 0 (pack_members 0 members)) = _
      rw [pack_end_idem, pack_members_idem]
      rfl
  · intro layout
    simp [get_type_Track, insert, DataType.insertMember, packed, pack_end, pack_members]

/-- C15 at a concrete input: the padded 12-byte `sample_layout` packs to 5
bytes, with `pt` kept at offset 0 and `mask` moved from offset 8 to offset 4. -/
theorem packed_contiguous_witness :
    packed (get_type_Track sample_layout)
      = .compound 5 [("pt", 0, .atomic "NATIVE_FLOAT" 4),
                     ("mask", 4, .atomic "NATIVE_HBOOL" 1)] :=
  packed_contiguous.2.2 sample_layout

/-! ## C14: the sentinel of `Track` -/

/-- C14: `get_empty<Track>()` has no argument and is one fixed record, with `pt`
equal to 0 and `mask` equal to `false`; in any state of a `Writer<Track>` with
`max_length ≥ 1` whose buffer is a whole number of rows, the row that `add(s)`
appends holds that record at every position from `length s` up to
`max_length`. -/
theorem get_empty_track :
    (get_empty : Track) = { pt := 0, mask := false } ∧
    (get_empty : Track).pt = 0 ∧ (get_empty : Track).mask = false ∧
    (∀ (w : Writer Track) (s : List Track),
      1 ≤ w._max_length → w._buffer.length % w._max_length = 0 →
      ∃ w' pre row, w.add s = .ok w' ∧ w'._buffer = pre ++ row ∧
        row.length = w._max_length ∧
        ∀ i, s.length ≤ i → i < w._max_length →
          row[i]? = some { pt := 0, mask := false }) := by
  refine ⟨rfl, rfl, rfl, ?_⟩
  intro w s hm hmod
  obtain ⟨w', pre, ha, hb, _, _⟩ := add_buffer w s hm hmod
  refine ⟨w', pre, _, ha, hb, resize_length _ _ _, ?_⟩
  intro i h1 h2
  rw [getElem?_resize, if_pos h2, List.getElem?_eq_none h1]
  rfl

/-- C14 at a concrete input: a one-record sequence added to a fresh
`Writer<Track>` with `max_length = 3` is padded with two sentinels. -/
theorem get_empty_track_witness :
    ∃ w0 w : Writer Track, (Writer.ctor Track ⟨[]⟩ "tracks" 3 2).1 = .ok w0 ∧
      w0.add [⟨3, true⟩] = .ok w ∧
      w._buffer = [⟨3, true⟩, ⟨0, false⟩, ⟨0, false⟩] ∧
      ∃ w' pre row, w.add [⟨4, true⟩] = .ok w' ∧ w'._buffer = pre ++ row ∧
        row.length = w._max_length ∧
        ∀ i, ([⟨4, true⟩] : List Track).length ≤ i → i < w._max_length →
          row[i]? = some { pt := 0, mask := false } := by
  refine ⟨_, _, rfl, rfl, rfl, ?_⟩
  exact get_empty_track.2.2.2 _ [⟨4, true⟩] (by decide) (by decide)

/-! ## C16: `close()` does not flush -/

/-- C16: for both writers `close()` changes nothing but the dataset's closed
flag: offset, buffer, the dataset's contents and its counts of `extend` and
`write` calls are as before.  So in a state reached by `add` and `flush` calls
the dataset after `close()` holds only the first `_offset` of the rows added,
and the buffered ones are missing, while `flush()` followed by `close()` leaves
all of them.  On a writer with `max_length = 3` and batch size 2, one `add`
then `close()` (a partial batch) and two `add` calls then `close()` (a full
batch) both leave a dataset of 0 rows. -/
theorem close_does_not_flush :
    (∀ (T : Type) (w : Writer T),
      w.close._offset = w._offset ∧ w.close._buffer = w._buffer ∧
      w.close._ds.rows = w._ds.rows ∧ w.close._ds.n_extend = w._ds.n_extend ∧
      w.close._ds.n_write = w._ds.n_write ∧ w.close._ds.closed = true) ∧
    (∀ (T : Type) (w : Writer1d T),
      w.close._offset = w._offset ∧ w.close._buffer = w._buffer ∧
      w.close._ds.cells = w._ds.cells ∧ w.close._ds.n_extend = w._ds.n_extend ∧
      w.close._ds.n_write = w._ds.n_write ∧ w.close._ds.closed = true) ∧
    (∀ (T : Type) [GetEmpty T] (group : CommonFG) (name : String) (m b : Nat)
        (ops : List (Op T)) (w0 : Writer T),
      1 ≤ m → (Writer.ctor T group name m b).1 = .ok w0 →
      ∃ w n wf, w0.run ops = .ok w ∧ w.buffer_size = .ok n ∧
        w.close._ds.rows.length + n = (Op.adds ops).length ∧
        w.close._ds.rows
          = ((Op.adds ops).map (fun jet => (resize jet m get_empty).map some)).take w._offset ∧
        w.flush = .ok wf ∧
        wf.close._ds.rows
          = (Op.adds ops).map (fun jet => (resize jet m get_empty).map some)) ∧
    (∀ (T : Type) (group : CommonFG) (name : String) (b : Nat)
        (ops : List (Op1 T)) (w0 : Writer1d T),
      (Writer1d.ctor T group name b).1 = .ok w0 →
      (w0.run ops).close._ds.cells.length + (w0.run ops)._buffer.length
        = (Op1.adds ops).length ∧
      (w0.run ops).close._ds.cells = ((Op1.adds ops).map some).take (w0.run ops)._offset ∧
      (w0.run ops).flush.close._ds.cells = (Op1.adds ops).map some) ∧
    (∃ w0 w1 w2 : Writer Track,
      (Writer.ctor Track ⟨[]⟩ "tracks" 3 2).1 = .ok w0 ∧
      w0.add [⟨1, true⟩, ⟨2, true⟩] = .ok w1 ∧ w1.close._ds.rows = [] ∧
      w1.add [⟨3, true⟩] = .ok w2 ∧ w2.buffer_size = .ok w2._batch_size ∧
      w2.close._ds.rows = [] ∧ w2.close._ds.n_write = 0) := by
  refine ⟨fun T w => ⟨rfl, rfl, rfl, rfl, rfl, rfl⟩, fun T w => ⟨rfl, rfl, rfl, rfl, rfl, rfl⟩,
    ?_, ?_, ⟨_, _, _, rfl, rfl, rfl, rfl, rfl, rfl, rfl⟩⟩
  · intro T _ group name m b ops w0 hm h0
    obtain ⟨hh, hwm, _⟩ := ctor_holds group name m b hm w0 h0
    obtain ⟨w, c, p, hr, h, _, _, hrows, _⟩ := run_holds ops w0 [] [] hh
    obtain ⟨wf, hf, hf', _⟩ := flush_holds w c p h
    simp only [List.append_nil, List.nil_append] at hrows
    rw [hwm] at hrows
    have hall : (c ++ p).map (List.map some)
        = (Op.adds ops).map (fun jet => (resize jet m get_empty).map some) := by
      rw [hrows, List.map_map]
      rfl
    refine ⟨w, p.length, wf, hr, buffer_size_of_holds w c p h, ?_, ?_, hf, ?_⟩
    · show w._ds.rows.length + p.length = _
      rw [h.rows_eq, List.length_map, ← List.length_append, hrows, List.length_map]
    · show w._ds.rows = _
      rw [← hall, h.rows_eq, h.offset_eq, List.map_append,
        List.take_left' (List.length_map _ _)]
    · show wf._ds.rows = _
      rw [hf'.rows_eq, hall]
  · intro T group name b ops w0 h0
    obtain ⟨hh, _, _, _, hbuf0, _⟩ := ctor1_holds group name b w0 h0
    obtain ⟨c, hc, _, hrows⟩ := run1_rows ops w0 [] hh
    obtain ⟨h1, _⟩ := flush1_holds _ c hc
    rw [hbuf0] at hrows
    simp only [List.append_nil, List.nil_append] at hrows
    refine ⟨?_, ?_, ?_⟩
    · show (w0.run ops)._ds.cells.length + _ = _
      rw [hc.cells_eq, List.length_map, ← List.length_append, hrows]
    · show (w0.run ops)._ds.cells = _
      rw [← hrows, hc.cells_eq, hc.offset_eq, List.map_append,
        List.take_left' (List.length_map _ _)]
    · show (w0.run ops).flush._ds.cells = _
      rw [h1.cells_eq, hrows]

/-- C16 at a concrete input: `sample_ops` leaves one row buffered, which
`close()` alone does not store. -/
theorem close_does_not_flush_witness :
    ∃ (w0 w wf : Writer Track) (n : Nat),
      (Writer.ctor Track ⟨[]⟩ "tracks" 2 2).1 = .ok w0 ∧
      w0.run sample_ops = .ok w ∧ w.buffer_size = .ok n ∧
      w.close._ds.rows.length + n = (Op.adds sample_ops).length ∧
      w.flush = .ok wf ∧
      wf.close._ds.rows
        = (Op.adds sample_ops).map (fun jet => (resize jet 2 get_empty).map some) := by
  obtain ⟨w, n, wf, hr, hs, hlen, _, hf, hall⟩ :=
    close_does_not_flush.2.2.1 Track ⟨[]⟩ "tracks" 2 2 sample_ops _ (by decide) rfl
  exact ⟨_, w, wf, n, rfl, hr, hs, hlen, hf, hall⟩

/-! ## C19: the divisor in `buffer_size()` -/

theorem main_ne_division_by_zero (n : Nat) (track0 : Track) :
    main n track0 ≠ .error .division_by_zero := by
  by_cases hn : n = 0
  · subst hn
    intro h
    cases h
  · have hm : 1 ≤ n := Nat.pos_of_ne_zero hn
    have hc := ctor_ok Track ⟨[]⟩ "tracks" n 256 (by decide) hm
    obtain ⟨hh, _⟩ := ctor_holds ⟨[]⟩ "tracks" n 256 hm _ (by rw [hc])
    obtain ⟨w, c, p, hr, h, _⟩ :=
      run_holds (List.replicate n (Op.add (List.replicate n track0))) _ [] [] hh
    obtain ⟨wf, hf, _⟩ := flush_holds w c p h
    unfold main
    simp only [hc, hr, hf]
    intro h
    cases h

/-- C19: a rank-2 writer that the constructor returns has `_max_length ≠ 0`, and
so has every state that `add` and `flush` calls reach from it: the remainder
and the quotient in `buffer_size()` have a non-zero divisor, and `buffer_size()`,
`flush()` and `add()` do not divide by zero; every call returns normally.
The constructor's own guard is on `batch_size` only; `max_length = 0` is refused
by `setChunk` inside the constructor.  So the driver run without an argument,
`Writer(out_file, "tracks", 0, 256)`, ends in the constructor with the
exception of `setChunk` and does not reach `flush()`; for no argument does
the driver divide by zero. -/
theorem buffer_size_divisor_nonzero :
    (∀ (T : Type) [GetEmpty T] (group : CommonFG) (name : String) (m b : Nat)
        (ops : List (Op T)) (w0 w : Writer T) (op : Op T),
      (Writer.ctor T group name m b).1 = .ok w0 → w0.run ops = .ok w →
      w0._max_length ≠ 0 ∧ w._max_length ≠ 0 ∧
      w.buffer_size ≠ .error .division_by_zero ∧
      w.flush ≠ .error .division_by_zero ∧
      (∀ jet, w.add jet ≠ .error .division_by_zero) ∧
      ∃ w', w.step op = .ok w') ∧
    (Writer.ctor Track ⟨[]⟩ "tracks" 0 256).1 = .error .h5_exception ∧
    (∀ track0, main 0 track0 = .error .h5_exception) ∧
    (∀ n track0, main n track0 ≠ .error .division_by_zero) := by
  refine ⟨?_, rfl, fun track0 => rfl, main_ne_division_by_zero⟩
  intro T _ group name m b ops w0 w op h0 hr
  obtain ⟨_, hm1⟩ := ctor_ok_inv T group name m b w0 h0
  obtain ⟨hw0, _⟩ := ctor_holds group name m b hm1 w0 h0
  obtain ⟨hwm, _, _, hcase⟩ := reach_cases group name m b ops w0 w h0 hr
  rcases hcase with ⟨hm0, _⟩ | ⟨_, c, p, hh, _⟩
  · omega
  · obtain ⟨wa, ha, _⟩ := flush_holds w c p hh
    have hpos := hh.max_length_pos
    have hpos0 := hw0.max_length_pos
    refine ⟨by omega, by omega, ?_, ?_, ?_, ?_⟩
    · rw [buffer_size_of_holds w c p hh]
      intro h
      cases h
    · rw [ha]
      intro h
      cases h
    · intro jet
      obtain ⟨w', hadd, _⟩ := add_holds w c p hh jet
      rw [hadd]
      intro h
      cases h
    · cases op with
      | add jet =>
        obtain ⟨w', hadd, _⟩ := add_holds w c p hh jet
        exact ⟨w', hadd⟩
      | flush => exact ⟨wa, ha⟩

/-- C19 at a concrete input: the state after `sample_ops` on a `Writer<Track>`
with `max_length = 2` and batch size 2. -/
theorem buffer_size_divisor_nonzero_witness :
    ∃ w0 w : Writer Track,
      (Writer.ctor Track ⟨[]⟩ "tracks" 2 2).1 = .ok w0 ∧ w0.run sample_ops = .ok w ∧
      w._max_length ≠ 0 ∧ w.buffer_size ≠ .error .division_by_zero ∧
      w.flush ≠ .error .division_by_zero := by
  have h := buffer_size_divisor_nonzero.1 Track ⟨[]⟩ "tracks" 2 2 sample_ops _ _ Op.flush rfl
    (show Writer.run _ sample_ops = .ok _ from rfl)
  exact ⟨_, _, rfl, rfl, h.2.1, h.2.2.1, h.2.2.2.1⟩

end h5
